import Mathlib

/-!
# qtip input model (`src/input_model.h`)

A shallow embedding of `InputModelUnpaired` and `InputModelPaired`: the
constructor's statistics pass, `draw`, `empty`, `num_added`, `avg_len` and
`max_len`.

The C++ code computes with `float`.  The embedding is written once, over an
interpretation `FloatOps F` of the `float` operations the code uses, and two
interpretations are given:

* `binary32`  : IEEE-754 single precision, every operation rounded to
  nearest, ties to even (what `float` is on the platforms the program is
  built for);
* `exactArith`: the rationals, no rounding (the idealised reading in which
  the spec speaks of "the arithmetic mean" and of `floor(u * size)`).

`size_t` values are natural numbers; the only subtraction in the code,
`ts_.size()-1`, is executed after `assert(!empty())`, so it cannot wrap.
-/

namespace Qtip

/-! ## Interpretations of `float` -/

/-- The `float` operations used by `input_model.h`. -/
structure FloatOps (F : Type) where
  /-- the literal `0.0f` -/
  zero : F
  /-- conversion of a `size_t` to `float`: `(float)n`, also the implicit one in
  `x / ts.size()` and `x * ts_.size()` -/
  ofNat : Nat → F
  /-- `x + y` on `float` -/
  add : F → F → F
  /-- `x * y` on `float` -/
  mul : F → F → F
  /-- `x / y` on `float` -/
  div : F → F → F
  /-- conversion of a non-negative `float` to `size_t`: `(size_t)x`, which
  truncates -/
  toNat : F → Nat

/-- Exact arithmetic on the rationals: no operation rounds. -/
def exactArith : FloatOps ℚ where
  zero := 0
  ofNat := fun n => (n : ℚ)
  add := fun x y => x + y
  mul := fun x y => x * y
  div := fun x y => x / y
  toNat := fun x => ⌊x⌋₊

/-- A finite non-negative single-precision value, held as the number of units
of `2^-149` (the smallest positive subnormal) it is made of.  Every finite
non-negative binary32 value is such a multiple.  All operands in
`input_model.h` are non-negative, and none can reach the overflow threshold
`2^128`: sizes and lengths are `size_t` values below `2^64`, the sample is at
most `1`. -/
structure F32 where
  units : Nat
deriving DecidableEq, Repr

/-- The number of `2^-149` units in `1.0f`. -/
def F32.one : Nat := 2 ^ 149

/-- Halving loop behind `F32.ilog2`; `fuel` bounds the number of halvings. -/
def F32.ilog2Fuel : Nat → Nat → Nat
  | 0, _ => 0
  | fuel + 1, n => if n < 2 then 0 else F32.ilog2Fuel fuel (n / 2) + 1

/-- Position of the leading binary digit of `n`: the `k` with
`2^k ≤ n < 2^(k+1)`, and `0` for `n = 0`. -/
def F32.ilog2 (n : Nat) : Nat := F32.ilog2Fuel n n

/-- Round the non-negative rational `p / q`, given in units of `2^-149`, to
the nearest value with a 24-bit significand and exponent at least the
subnormal one; ties go to the even significand.  `2^e` is the spacing, in
units, of the representable values around `p / q`.  There is no upper bound on
the exponent: the overflow threshold is out of reach of the code's operands. -/
def F32.round (p q : Nat) : F32 :=
  let e := F32.ilog2 (p / q) - 23
  let d := q * 2 ^ e
  let m := p / d
  let r := p % d
  let m1 := if 2 * r < d then m else if d < 2 * r then m + 1
            else if m % 2 = 0 then m else m + 1
  ⟨m1 * 2 ^ e⟩

/-- IEEE-754 binary32 with round-to-nearest-even on finite non-negative values.
Division by zero is not reached by the code (the constructor divides by
`ts.size()` only inside the loop over `i < ts.size()`); it is given the value
`0` here. -/
def binary32 : FloatOps F32 where
  zero := ⟨0⟩
  ofNat := fun n => F32.round (n * F32.one) 1
  add := fun x y => F32.round (x.units + y.units) 1
  mul := fun x y => F32.round (x.units * y.units) F32.one
  div := fun x y => if y.units = 0 then ⟨0⟩ else F32.round (x.units * F32.one) y.units
  toNat := fun x => x.units / F32.one

/-- The single-precision value nearest to the decimal literal `num / den`. -/
def F32.ofRatio (num den : Nat) : F32 := F32.round (num * F32.one) den

/-! ## Collaborators that are not part of the sources -/

/-- Modelled from the spec: `TemplateUnpaired` of `template.h`, which is not
among the sources.  "UnpairedTemplateRecord: has a reference length
(non-negative integer)"; `input_model.h` reads nothing else of a record. -/
structure TemplateUnpaired where
  reflen : Nat
deriving DecidableEq, Repr

/-- Modelled from the spec: `TemplatePaired` of `template.h`, which is not
among the sources.  "PairedTemplateRecord: has a fragment length
(non-negative integer)"; `input_model.h` reads nothing else of a record. -/
structure TemplatePaired where
  fraglen_ : Nat
deriving DecidableEq, Repr

deriving instance DecidableEq for Except

/-- How a call of `draw()` can fail. -/
inductive DrawError where
  /-- `assert(!empty())` failed -/
  | emptyAssert
  /-- `assert(rn < ts_.size())` failed -/
  | rangeAssert
  /-- `ts_[rn]` with `rn` outside the collection -/
  | outOfRange
deriving DecidableEq, Repr

/-! ## `InputModelUnpaired` -/

/-- The data members of `InputModelUnpaired`.  The collection `ts_`
(`EList<TemplateUnpaired>` of `ds.h`, an indexable sequence) is a list. -/
structure InputModelUnpaired (F : Type) where
  ts_ : List TemplateUnpaired
  fraglen_avg_ : F
  n_ : Nat
  fraglen_max_ : Nat
  fraction_even_ : F
  low_score_bias_ : F

/-- The accumulators of the constructor's loop: `fraglen_avg_` and
`fraglen_max_`. -/
structure Stats (F : Type) where
  avg : F
  max : Nat

/-- One iteration of the loop of `InputModelUnpaired::InputModelUnpaired`, at
the record `t = ts[i]`, with `size = ts.size()`:
`fraglen_avg_ += ((float)ts[i].reflen() / ts.size());`
`fraglen_max_ = std::max(fraglen_max_, (size_t)ts[i].reflen());` -/
def InputModelUnpaired.step {F : Type} (A : FloatOps F) (size : Nat) (st : Stats F)
    (t : TemplateUnpaired) : Stats F :=
  { avg := A.add st.avg (A.div (A.ofNat t.reflen) (A.ofNat size))
    max := max st.max t.reflen }

/-- The constructor `InputModelUnpaired(ts, n, fraction_even, low_score_bias)`:
the members are initialised from the arguments, the accumulators start at
`0.0f` and `0`, and the loop visits `ts[0]`, ..., `ts[ts.size()-1]` in order. -/
def InputModelUnpaired.new {F : Type} (A : FloatOps F) (ts : List TemplateUnpaired)
    (n : Nat) (fraction_even low_score_bias : F) : InputModelUnpaired F :=
  let st := ts.foldl (InputModelUnpaired.step A ts.length) { avg := A.zero, max := 0 }
  { ts_ := ts
    n_ := n
    fraction_even_ := fraction_even
    low_score_bias_ := low_score_bias
    fraglen_avg_ := st.avg
    fraglen_max_ := st.max }

/-- The accessor `empty()`: `return ts_.empty();` -/
def InputModelUnpaired.empty {F : Type} (m : InputModelUnpaired F) : Bool :=
  m.ts_.isEmpty

/-- The accessor `num_added()`: `return n_;` -/
def InputModelUnpaired.num_added {F : Type} (m : InputModelUnpaired F) : Nat :=
  m.n_

/-- The accessor `avg_len()`: `return fraglen_avg_;` -/
def InputModelUnpaired.avg_len {F : Type} (m : InputModelUnpaired F) : F :=
  m.fraglen_avg_

/-- The accessor `max_len()`: `return fraglen_max_;` -/
def InputModelUnpaired.max_len {F : Type} (m : InputModelUnpaired F) : Nat :=
  m.fraglen_max_

/-- The index computed by `InputModelUnpaired::draw()` when `r4_uni_01()`
returns `u`:
`assert(!empty());`
`size_t rn = std::min((size_t)(r4_uni_01() * ts_.size()), ts_.size()-1);`
`assert(rn < ts_.size());` -/
def InputModelUnpaired.drawIndex {F : Type} (A : FloatOps F) (m : InputModelUnpaired F)
    (u : F) : Except DrawError Nat :=
  if m.empty then .error .emptyAssert
  else
    let rn := min (A.toNat (A.mul u (A.ofNat m.ts_.length))) (m.ts_.length - 1)
    if rn < m.ts_.length then .ok rn else .error .rangeAssert

/-- The method `InputModelUnpaired::draw()` when `r4_uni_01()` returns `u`: the
index is computed as in `drawIndex`, then `return ts_[rn];`. -/
def InputModelUnpaired.draw {F : Type} (A : FloatOps F) (m : InputModelUnpaired F)
    (u : F) : Except DrawError TemplateUnpaired :=
  match m.drawIndex A u with
  | .error e => .error e
  | .ok rn =>
    match m.ts_[rn]? with
    | some t => .ok t
    | none => .error .outOfRange

/-! ## `InputModelPaired` -/

/-- The data members of `InputModelPaired`. -/
structure InputModelPaired (F : Type) where
  ts_ : List TemplatePaired
  fraglen_avg_ : F
  n_ : Nat
  fraglen_max_ : Nat
  fraction_even_ : F
  low_score_bias_ : F

/-- One iteration of the loop of `InputModelPaired::InputModelPaired`:
`fraglen_avg_ += ((float)ts[i].fraglen_ / ts.size());`
`fraglen_max_ = std::max(fraglen_max_, ts[i].fraglen_);` -/
def InputModelPaired.step {F : Type} (A : FloatOps F) (size : Nat) (st : Stats F)
    (t : TemplatePaired) : Stats F :=
  { avg := A.add st.avg (A.div (A.ofNat t.fraglen_) (A.ofNat size))
    max := max st.max t.fraglen_ }

/-- The constructor `InputModelPaired(ts, n, fraction_even, low_score_bias)`. -/
def InputModelPaired.new {F : Type} (A : FloatOps F) (ts : List TemplatePaired)
    (n : Nat) (fraction_even low_score_bias : F) : InputModelPaired F :=
  let st := ts.foldl (InputModelPaired.step A ts.length) { avg := A.zero, max := 0 }
  { ts_ := ts
    n_ := n
    fraction_even_ := fraction_even
    low_score_bias_ := low_score_bias
    fraglen_avg_ := st.avg
    fraglen_max_ := st.max }

/-- The accessor `empty()`: `return ts_.empty();` -/
def InputModelPaired.empty {F : Type} (m : InputModelPaired F) : Bool :=
  m.ts_.isEmpty

/-- The accessor `num_added()`: `return n_;` -/
def InputModelPaired.num_added {F : Type} (m : InputModelPaired F) : Nat :=
  m.n_

/-- The accessor `avg_len()`: `return fraglen_avg_;` -/
def InputModelPaired.avg_len {F : Type} (m : InputModelPaired F) : F :=
  m.fraglen_avg_

/-- The accessor `max_len()`: `return fraglen_max_;` -/
def InputModelPaired.max_len {F : Type} (m : InputModelPaired F) : Nat :=
  m.fraglen_max_

/-- The index computed by `InputModelPaired::draw()` when `r4_uni_01()` returns
`u`:
`assert(!empty());`
`size_t rn = std::min((size_t)(r4_uni_01() * ts_.size()), ts_.size()-1);` -/
def InputModelPaired.drawIndex {F : Type} (A : FloatOps F) (m : InputModelPaired F)
    (u : F) : Except DrawError Nat :=
  if m.empty then .error .emptyAssert
  else .ok (min (A.toNat (A.mul u (A.ofNat m.ts_.length))) (m.ts_.length - 1))

/-- The method `InputModelPaired::draw()` when `r4_uni_01()` returns `u`: the
index is computed as in `drawIndex`, then `return ts_[rn];`. -/
def InputModelPaired.draw {F : Type} (A : FloatOps F) (m : InputModelPaired F)
    (u : F) : Except DrawError TemplatePaired :=
  match m.drawIndex A u with
  | .error e => .error e
  | .ok rn =>
    match m.ts_[rn]? with
    | some t => .ok t
    | none => .error .outOfRange

/-! ## Successive draws -/

/-- Successive calls of `InputModelUnpaired::draw()` while `r4_uni_01()`
returns the samples `us` in order: one result per call. -/
def InputModelUnpaired.draws {F : Type} (A : FloatOps F) (m : InputModelUnpaired F) :
    List F → List (Except DrawError TemplateUnpaired)
  | [] => []
  | u :: us => m.draw A u :: InputModelUnpaired.draws A m us

/-- Successive calls of `InputModelPaired::draw()` while `r4_uni_01()` returns
the samples `us` in order: one result per call. -/
def InputModelPaired.draws {F : Type} (A : FloatOps F) (m : InputModelPaired F) :
    List F → List (Except DrawError TemplatePaired)
  | [] => []
  | u :: us => m.draw A u :: InputModelPaired.draws A m us

/-- The rational value of a single-precision number. -/
def F32.toRat (x : F32) : ℚ := (x.units : ℚ) / 2 ^ 149

/-! ## Single-precision values -/

/-- Whether a number of units is a single-precision value: all its non-zero
binary digits are among the 24 leading ones (or it is below `2^24` units, the
subnormal range and the first normal binade). -/
def F32.isValue (x : F32) : Bool :=
  x.units % 2 ^ (F32.ilog2 x.units - 23) == 0

/-! ## The unclamped index -/

/-- The first argument of `std::min` in both `draw()` methods, for the sample
`u` returned by `r4_uni_01()` and a collection of `size` records:
`(size_t)(r4_uni_01() * ts_.size())`. -/
def unclampedIndex {F : Type} (A : FloatOps F) (u : F) (size : Nat) : Nat :=
  A.toNat (A.mul u (A.ofNat size))

/-! ## The constructors' loops with their divisions recorded -/

/-- One iteration of the loop of `InputModelUnpaired::InputModelUnpaired` that
also records the divisor of the division it executes,
`(float)ts[i].reflen() / ts.size()`: the statistics are updated as in
`InputModelUnpaired.step`, and `size = ts.size()` is appended to the record. -/
def InputModelUnpaired.stepLogged {F : Type} (A : FloatOps F) (size : Nat)
    (s : Stats F × List Nat) (t : TemplateUnpaired) : Stats F × List Nat :=
  (InputModelUnpaired.step A size s.1 t, s.2 ++ [size])

/-- The loop of `InputModelUnpaired::InputModelUnpaired` over `ts`, from the
initial accumulators `0.0f` and `0`, with the divisors of all executed
divisions, in order of execution. -/
def InputModelUnpaired.loopLogged {F : Type} (A : FloatOps F) (ts : List TemplateUnpaired) :
    Stats F × List Nat :=
  ts.foldl (InputModelUnpaired.stepLogged A ts.length) ({ avg := A.zero, max := 0 }, [])

/-- One iteration of the loop of `InputModelPaired::InputModelPaired` that also
records the divisor of the division it executes,
`(float)ts[i].fraglen_ / ts.size()`. -/
def InputModelPaired.stepLogged {F : Type} (A : FloatOps F) (size : Nat)
    (s : Stats F × List Nat) (t : TemplatePaired) : Stats F × List Nat :=
  (InputModelPaired.step A size s.1 t, s.2 ++ [size])

/-- The loop of `InputModelPaired::InputModelPaired` over `ts`, from the initial
accumulators `0.0f` and `0`, with the divisors of all executed divisions, in
order of execution. -/
def InputModelPaired.loopLogged {F : Type} (A : FloatOps F) (ts : List TemplatePaired) :
    Stats F × List Nat :=
  ts.foldl (InputModelPaired.stepLogged A ts.length) ({ avg := A.zero, max := 0 }, [])

/-! ## Basic facts about the constructors -/

section Basic

variable {F : Type} (A : FloatOps F)

@[simp]
theorem unpaired_new_ts (ts : List TemplateUnpaired) (n : Nat) (fe lsb : F) :
    (InputModelUnpaired.new A ts n fe lsb).ts_ = ts := rfl

@[simp]
theorem paired_new_ts (ts : List TemplatePaired) (n : Nat) (fe lsb : F) :
    (InputModelPaired.new A ts n fe lsb).ts_ = ts := rfl

theorem unpaired_drawIndex_of_ne_nil (m : InputModelUnpaired F) (u : F)
    (h : m.ts_ ≠ []) :
    m.drawIndex A u = .ok (min (A.toNat (A.mul u (A.ofNat m.ts_.length))) (m.ts_.length - 1)) := by
  have hpos : 0 < m.ts_.length := List.length_pos.mpr h
  have hlt : min (A.toNat (A.mul u (A.ofNat m.ts_.length))) (m.ts_.length - 1) < m.ts_.length := by
    omega
  have he : m.empty = false := by
    cases hts : m.ts_ with
    | nil => exact absurd hts h
    | cons a l => simp [InputModelUnpaired.empty, hts]
  simp [InputModelUnpaired.drawIndex, he, hlt]

theorem paired_drawIndex_of_ne_nil (m : InputModelPaired F) (u : F)
    (h : m.ts_ ≠ []) :
    m.drawIndex A u = .ok (min (A.toNat (A.mul u (A.ofNat m.ts_.length))) (m.ts_.length - 1)) := by
  have he : m.empty = false := by
    cases hts : m.ts_ with
    | nil => exact absurd hts h
    | cons a l => simp [InputModelPaired.empty, hts]
  simp [InputModelPaired.drawIndex, he]

theorem unpaired_draw_of_ne_nil (m : InputModelUnpaired F) (u : F)
    (h : m.ts_ ≠ []) :
    ∃ hlt : min (A.toNat (A.mul u (A.ofNat m.ts_.length))) (m.ts_.length - 1) < m.ts_.length,
      m.draw A u = .ok (m.ts_.get ⟨_, hlt⟩) := by
  have hpos : 0 < m.ts_.length := List.length_pos.mpr h
  have hlt : min (A.toNat (A.mul u (A.ofNat m.ts_.length))) (m.ts_.length - 1) < m.ts_.length := by
    omega
  refine ⟨hlt, ?_⟩
  simp [InputModelUnpaired.draw, unpaired_drawIndex_of_ne_nil A m u h,
    List.getElem?_eq_getElem hlt]

theorem paired_draw_of_ne_nil (m : InputModelPaired F) (u : F)
    (h : m.ts_ ≠ []) :
    ∃ hlt : min (A.toNat (A.mul u (A.ofNat m.ts_.length))) (m.ts_.length - 1) < m.ts_.length,
      m.draw A u = .ok (m.ts_.get ⟨_, hlt⟩) := by
  have hpos : 0 < m.ts_.length := List.length_pos.mpr h
  have hlt : min (A.toNat (A.mul u (A.ofNat m.ts_.length))) (m.ts_.length - 1) < m.ts_.length := by
    omega
  refine ⟨hlt, ?_⟩
  simp [InputModelPaired.draw, paired_drawIndex_of_ne_nil A m u h,
    List.getElem?_eq_getElem hlt]

end Basic

/-! ## The single-precision rounding is a nearest rounding -/

section Rounding

/-- The halving loop finds the position of the leading binary digit when it
has enough fuel. -/
theorem F32.ilog2Fuel_spec : ∀ (fuel n : Nat), n ≤ fuel → 0 < n →
    2 ^ F32.ilog2Fuel fuel n ≤ n ∧ n < 2 ^ (F32.ilog2Fuel fuel n + 1) := by
  intro fuel
  induction fuel with
  | zero => intro n h1 h2; omega
  | succ f ih =>
    intro n h1 h2
    unfold F32.ilog2Fuel
    by_cases hn : n < 2
    · simp only [hn, if_true]
      omega
    · simp only [hn, if_false]
      obtain ⟨a, b⟩ := ih (n / 2) (by omega) (by omega)
      rw [pow_succ] at b ⊢
      rw [pow_succ]
      constructor <;> omega

/-- The value `F32.ilog2 n` is the position of the leading binary digit of a
positive `n`. -/
theorem F32.ilog2_spec (n : Nat) (h : 0 < n) :
    2 ^ F32.ilog2 n ≤ n ∧ n < 2 ^ (F32.ilog2 n + 1) :=
  F32.ilog2Fuel_spec n n (le_refl n) h

/-- Dividing by the spacing leaves a significand of at most 24 bits. -/
theorem F32.significand_lt (N : Nat) : N / 2 ^ (F32.ilog2 N - 23) < 2 ^ 24 := by
  rcases Nat.eq_zero_or_pos N with h0 | hpos
  · subst h0
    simp
  · obtain ⟨_, hlt⟩ := F32.ilog2_spec N hpos
    rw [Nat.div_lt_iff_lt_mul (Nat.pos_pow_of_pos _ (by norm_num))]
    by_cases hL : 23 ≤ F32.ilog2 N
    · have : 2 ^ 24 * 2 ^ (F32.ilog2 N - 23) = 2 ^ (F32.ilog2 N + 1) := by
        rw [← pow_add]
        congr 1
        omega
      omega
    · have h1 : F32.ilog2 N - 23 = 0 := by omega
      have h2 : 2 ^ (F32.ilog2 N + 1) ≤ 2 ^ 24 := Nat.pow_le_pow_right (by norm_num) (by omega)
      rw [h1]
      omega

/-- The rounding function returns a nearest point of the grid of spacing
`2^e` around `p / q`, with a significand of at most 24 bits (or the next power
of two), and the even significand at a tie.  Distances are scaled by `q`. -/
theorem F32.round_nearest (p q : Nat) (hq : 0 < q) :
    ∃ m : Nat,
      (F32.round p q).units = m * 2 ^ (F32.ilog2 (p / q) - 23) ∧
      m ≤ 2 ^ 24 ∧
      2 * (m * 2 ^ (F32.ilog2 (p / q) - 23) * q - p) ≤ q * 2 ^ (F32.ilog2 (p / q) - 23) ∧
      2 * (p - m * 2 ^ (F32.ilog2 (p / q) - 23) * q) ≤ q * 2 ^ (F32.ilog2 (p / q) - 23) ∧
      ((2 * (m * 2 ^ (F32.ilog2 (p / q) - 23) * q - p) = q * 2 ^ (F32.ilog2 (p / q) - 23) ∨
        2 * (p - m * 2 ^ (F32.ilog2 (p / q) - 23) * q) = q * 2 ^ (F32.ilog2 (p / q) - 23)) →
        m % 2 = 0) := by
  have hsig := F32.significand_lt (p / q)
  rw [Nat.div_div_eq_div_mul] at hsig
  have hE : 0 < 2 ^ (F32.ilog2 (p / q) - 23) := Nat.pos_pow_of_pos _ (by norm_num)
  unfold F32.round
  simp only
  generalize 2 ^ (F32.ilog2 (p / q) - 23) = E at hsig hE ⊢
  have hd : 0 < q * E := Nat.mul_pos hq hE
  have hdm := Nat.div_add_mod p (q * E)
  have hr := Nat.mod_lt p hd
  have e1 : ∀ m : Nat, m * E * q = (q * E) * m := fun m => by ring
  have e2 : (q * E) * (p / (q * E) + 1) = (q * E) * (p / (q * E)) + q * E := by ring
  generalize hX : (q * E) * (p / (q * E)) = X at hdm e2
  generalize hR : p % (q * E) = r at hdm hr
  generalize hD : q * E = d at *
  generalize hM : p / d = m0 at *
  split_ifs with h1 h2 h3
  · exact ⟨m0, rfl, by omega, by rw [e1, hX]; omega, by rw [e1, hX]; omega,
      by rw [e1, hX]; omega⟩
  · exact ⟨m0 + 1, rfl, by omega, by rw [e1, e2]; omega, by rw [e1, e2]; omega,
      by rw [e1, e2]; omega⟩
  · exact ⟨m0, rfl, by omega, by rw [e1, hX]; omega, by rw [e1, hX]; omega,
      by intro _; exact h3⟩
  · exact ⟨m0 + 1, rfl, by omega, by rw [e1, e2]; omega, by rw [e1, e2]; omega,
      by intro _; omega⟩

end Rounding

/-! ## Single-precision products with the collection size -/

section Clamp

/-- A value whose 24 leading binary digits hold all its non-zero digits is
returned unchanged by the rounding function. -/
theorem F32.round_of_value (N q : Nat) (hq : 0 < q) (h : N % 2 ^ (F32.ilog2 N - 23) = 0) :
    F32.round (N * q) q = ⟨N⟩ := by
  have hE : 0 < 2 ^ (F32.ilog2 N - 23) := Nat.pos_pow_of_pos _ (by norm_num)
  obtain ⟨c, hc⟩ := Nat.dvd_of_mod_eq_zero h
  unfold F32.round
  simp only [Nat.mul_div_cancel _ hq]
  generalize 2 ^ (F32.ilog2 N - 23) = E at hE hc ⊢
  have hd : 0 < q * E := Nat.mul_pos hq hE
  have hp : N * q = (q * E) * c := by rw [hc]; ring
  have hdiv : N * q / (q * E) = c := by rw [hp]; exact Nat.mul_div_cancel_left c hd
  have hmod : N * q % (q * E) = 0 := by rw [hp]; exact Nat.mul_mod_right _ _
  rw [hdiv, hmod]
  simp only [Nat.mul_zero, hd, if_true]
  rw [hc, Nat.mul_comm]

/-- The units of a collection size of at most `2^24` have all their non-zero
binary digits among the 24 leading ones. -/
theorem F32.size_is_value (k : Nat) (hk : k ≤ 2 ^ 24) :
    (k * F32.one) % 2 ^ (F32.ilog2 (k * F32.one) - 23) = 0 := by
  apply Nat.mod_eq_zero_of_dvd
  rcases Nat.eq_zero_or_pos k with h0 | hpos
  · subst h0
    simp
  · have hN : 0 < k * F32.one := Nat.mul_pos hpos (Nat.pos_pow_of_pos _ (by norm_num))
    obtain ⟨hlo, hhi⟩ := F32.ilog2_spec (k * F32.one) hN
    by_cases hL : F32.ilog2 (k * F32.one) ≤ 172
    · exact Dvd.dvd.mul_left (Nat.pow_dvd_pow 2 (by omega)) k
    · have hle : k * F32.one ≤ 2 ^ 173 := by
        have : k * F32.one ≤ 2 ^ 24 * 2 ^ 149 := Nat.mul_le_mul_right _ hk
        simpa [F32.one] using this
      have h173 : 2 ^ 173 ≤ 2 ^ F32.ilog2 (k * F32.one) :=
        Nat.pow_le_pow_right (by norm_num) (by omega)
      have hN173 : k * F32.one = 2 ^ 173 := by omega
      have hL173 : F32.ilog2 (k * F32.one) = 173 := by
        have h1 : 2 ^ F32.ilog2 (k * F32.one) < 2 ^ 174 := by
          calc 2 ^ F32.ilog2 (k * F32.one) ≤ k * F32.one := hlo
            _ = 2 ^ 173 := hN173
            _ < 2 ^ 174 := by norm_num
        have := (Nat.pow_lt_pow_iff_right (by norm_num : 1 < 2)).mp h1
        omega
      rw [hL173, hN173]
      exact Nat.pow_dvd_pow 2 (by norm_num)

/-- In single precision a collection size of at most `2^24` is converted
without rounding. -/
theorem binary32_ofNat_exact (k : Nat) (hk : k ≤ 2 ^ 24) :
    binary32.ofNat k = ⟨k * F32.one⟩ := by
  have h := F32.round_of_value (k * F32.one) 1 (by norm_num) (F32.size_is_value k hk)
  rw [Nat.mul_one] at h
  exact h

/-- In single precision, for a collection size `k` of at most `2^24` the
sample `1.0f` gives the unclamped index `k`. -/
theorem binary32_unclamped_at_one (k : Nat) (hk : k ≤ 2 ^ 24) :
    unclampedIndex binary32 ⟨F32.one⟩ k = k := by
  have h := F32.round_of_value (k * F32.one) F32.one (Nat.pos_pow_of_pos _ (by norm_num))
    (F32.size_is_value k hk)
  show (F32.round (F32.one * (binary32.ofNat k).units) F32.one).units / F32.one = k
  rw [binary32_ofNat_exact k hk]
  show (F32.round (F32.one * (k * F32.one)) F32.one).units / F32.one = k
  rw [Nat.mul_comm F32.one (k * F32.one), h]
  exact Nat.mul_div_cancel k (Nat.pos_pow_of_pos _ (by norm_num))

/-- The halving loop does not run on `0`. -/
theorem F32.ilog2_zero : F32.ilog2 0 = 0 := rfl

/-- The spacing chosen for a number below `K` is at most `K / 2^23`, or `1`. -/
theorem F32.spacing_bound (N K : Nat) (hN : N < K) (hK : 2 ^ 23 < K) :
    2 ^ 23 * 2 ^ (F32.ilog2 N - 23) < K := by
  by_cases hL : 23 ≤ F32.ilog2 N
  · have hpos : 0 < N := by
      rcases Nat.eq_zero_or_pos N with h0 | h
      · subst h0
        rw [F32.ilog2_zero] at hL
        omega
      · exact h
    obtain ⟨hlo, _⟩ := F32.ilog2_spec N hpos
    have : 2 ^ 23 * 2 ^ (F32.ilog2 N - 23) = 2 ^ F32.ilog2 N := by
      rw [← pow_add]
      congr 1
      omega
    omega
  · have h0 : F32.ilog2 N - 23 = 0 := by omega
    rw [h0]
    omega

/-- Multiplying a value `K ≥ 2^24` by a sample of at most `1 - 2^-24` and
rounding gives less than `K`. -/
theorem F32.round_mul_lt (a K : Nat) (ha : a + 2 ^ 125 ≤ 2 ^ 149) (hK : 2 ^ 24 ≤ K) :
    (F32.round (a * K) (2 ^ 149)).units < K := by
  obtain ⟨m, hm, _, hup, _, _⟩ := F32.round_nearest (a * K) (2 ^ 149) (by norm_num)
  have hN : a * K / 2 ^ 149 < K := by
    apply Nat.div_lt_of_lt_mul
    have : a < 2 ^ 149 := by omega
    calc a * K < 2 ^ 149 * K := Nat.mul_lt_mul_of_pos_right this (by omega)
      _ = 2 ^ 149 * K := rfl
  have hsp := F32.spacing_bound (a * K / 2 ^ 149) K hN (by omega)
  have hprod : a * K + 2 ^ 125 * K ≤ 2 ^ 149 * K := by
    have := Nat.mul_le_mul_right K ha
    rw [Nat.add_mul] at this
    exact this
  rw [hm]
  generalize 2 ^ (F32.ilog2 (a * K / 2 ^ 149) - 23) = E at hup hsp ⊢
  by_contra hge
  have hXU : K * 2 ^ 149 ≤ m * E * 2 ^ 149 := Nat.mul_le_mul_right _ (by omega)
  generalize m * E = X at hup hge hXU
  generalize a * K = P at hup hprod
  omega

/-- In single precision, the product of a sample of at most `1 - 2^-24` and
the converted collection size `k > 0`, rounded, is below `k`. -/
theorem F32.round_mul_size_lt (a k : Nat) (ha : a + 2 ^ 125 ≤ 2 ^ 149) (hk : 0 < k) :
    (F32.round (a * (F32.round (k * 2 ^ 149) 1).units) (2 ^ 149)).units < k * 2 ^ 149 := by
  have hp1 : 2 ^ 149 ≤ k * 2 ^ 149 := Nat.le_mul_of_pos_left _ hk
  obtain ⟨m1, hm1, hm1le, hup1, hdn1, _⟩ := F32.round_nearest (k * 2 ^ 149) 1 (by norm_num)
  obtain ⟨hlo, hhi⟩ := F32.ilog2_spec (k * 2 ^ 149) (by omega)
  rw [Nat.div_one] at hm1 hup1 hdn1
  have hL : 149 ≤ F32.ilog2 (k * 2 ^ 149) := by
    have h1 : 2 ^ 149 < 2 ^ (F32.ilog2 (k * 2 ^ 149) + 1) := by omega
    have := (Nat.pow_lt_pow_iff_right (by norm_num : 1 < 2)).mp h1
    omega
  have hpowL : 2 ^ 23 * 2 ^ (F32.ilog2 (k * 2 ^ 149) - 23) = 2 ^ F32.ilog2 (k * 2 ^ 149) := by
    rw [← pow_add]
    congr 1
    omega
  have hpowL1 : 2 ^ (F32.ilog2 (k * 2 ^ 149) + 1) = 2 * 2 ^ F32.ilog2 (k * 2 ^ 149) := by
    rw [pow_succ]
    ring
  have hE1 : 0 < 2 ^ (F32.ilog2 (k * 2 ^ 149) - 23) := Nat.pos_pow_of_pos _ (by norm_num)
  -- the converted size `K`
  generalize hKdef : (F32.round (k * 2 ^ 149) 1).units = K at hm1 ⊢
  have hK24 : 2 ^ 24 ≤ K := by
    rw [hm1]
    generalize m1 * 2 ^ (F32.ilog2 (k * 2 ^ 149) - 23) = X at hup1 hdn1
    generalize 2 ^ (F32.ilog2 (k * 2 ^ 149) - 23) = E1 at hpowL hup1 hdn1 hE1
    omega
  have hRK := F32.round_mul_lt a K ha hK24
  by_cases hcase : K ≤ k * 2 ^ 149
  · omega
  · -- the size was rounded up
    by_contra hR
    obtain ⟨m2, hm2, _, hup2, _, _⟩ := F32.round_nearest (a * K) (2 ^ 149) (by norm_num)
    have hN : a * K / 2 ^ 149 < K := by
      apply Nat.div_lt_of_lt_mul
      have : a < 2 ^ 149 := by omega
      exact Nat.mul_lt_mul_of_pos_right this (by omega)
    have hKle : K ≤ 2 ^ (F32.ilog2 (k * 2 ^ 149) + 1) := by
      rw [hpowL1, ← hpowL, hm1]
      have := Nat.mul_le_mul_right (2 ^ (F32.ilog2 (k * 2 ^ 149) - 23)) hm1le
      omega
    have hL2 : F32.ilog2 (a * K / 2 ^ 149) ≤ F32.ilog2 (k * 2 ^ 149) := by
      rcases Nat.eq_zero_or_pos (a * K / 2 ^ 149) with h0 | hpos
      · rw [h0, F32.ilog2_zero]
        omega
      · obtain ⟨hlo2, _⟩ := F32.ilog2_spec _ hpos
        have h1 : 2 ^ F32.ilog2 (a * K / 2 ^ 149) < 2 ^ (F32.ilog2 (k * 2 ^ 149) + 1) := by
          omega
        have := (Nat.pow_lt_pow_iff_right (by norm_num : 1 < 2)).mp h1
        omega
    -- the size is strictly above the power of two below it
    have hstrict : 2 ^ F32.ilog2 (k * 2 ^ 149) < k * 2 ^ 149 := by
      by_contra hnot
      have hm1gt : 2 ^ 23 < m1 := by
        by_contra hm
        have := Nat.mul_le_mul_right (2 ^ (F32.ilog2 (k * 2 ^ 149) - 23)) (Nat.le_of_not_lt hm)
        omega
      have := Nat.mul_le_mul_right (2 ^ (F32.ilog2 (k * 2 ^ 149) - 23)) hm1gt
      rw [Nat.succ_mul] at this
      rw [← hm1] at hup1
      omega
    rcases Nat.lt_or_ge (F32.ilog2 (a * K / 2 ^ 149)) (F32.ilog2 (k * 2 ^ 149)) with hlt | hge
    · -- the product lies below the power of two
      have hNlt : a * K / 2 ^ 149 < 2 ^ F32.ilog2 (k * 2 ^ 149) := by
        rcases Nat.eq_zero_or_pos (a * K / 2 ^ 149) with h0 | hpos
        · rw [h0]
          exact Nat.pos_pow_of_pos _ (by norm_num)
        · obtain ⟨_, hhi2⟩ := F32.ilog2_spec _ hpos
          have : 2 ^ (F32.ilog2 (a * K / 2 ^ 149) + 1) ≤ 2 ^ F32.ilog2 (k * 2 ^ 149) :=
            Nat.pow_le_pow_right (by norm_num) hlt
          omega
      have hPlt : a * K < 2 ^ F32.ilog2 (k * 2 ^ 149) * 2 ^ 149 := by
        have := Nat.lt_mul_div_succ (a * K) (by norm_num : 0 < 2 ^ 149)
        have h2 := Nat.mul_le_mul_left (2 ^ 149) (Nat.succ_le_of_lt hNlt)
        rw [Nat.mul_comm (2 ^ 149) (2 ^ F32.ilog2 (k * 2 ^ 149))] at h2
        omega
      have hsplit : 2 ^ F32.ilog2 (k * 2 ^ 149)
          = 2 ^ (F32.ilog2 (k * 2 ^ 149) - (F32.ilog2 (a * K / 2 ^ 149) - 23))
            * 2 ^ (F32.ilog2 (a * K / 2 ^ 149) - 23) := by
        rw [← pow_add]
        congr 1
        omega
      have hE2 : 0 < 2 ^ (F32.ilog2 (a * K / 2 ^ 149) - 23) := Nat.pos_pow_of_pos _ (by norm_num)
      rw [hm2] at hR
      generalize 2 ^ (F32.ilog2 (k * 2 ^ 149) - (F32.ilog2 (a * K / 2 ^ 149) - 23)) = c at hsplit
      generalize 2 ^ (F32.ilog2 (a * K / 2 ^ 149) - 23) = E2 at hsplit hup2 hE2 hR
      have hm2c : m2 ≤ c := by
        by_contra hgt
        have := Nat.mul_le_mul_right E2 (Nat.succ_le_of_lt (Nat.lt_of_not_le hgt))
        rw [Nat.succ_mul, ← hsplit] at this
        generalize m2 * E2 = X at hup2 this
        generalize a * K = P at hup2 hPlt
        generalize 2 ^ F32.ilog2 (k * 2 ^ 149) = T at hPlt this
        omega
      have := Nat.mul_le_mul_right E2 hm2c
      rw [← hsplit] at this
      omega
    · -- the product has the spacing of the size
      have heq : F32.ilog2 (a * K / 2 ^ 149) = F32.ilog2 (k * 2 ^ 149) := by omega
      rw [heq] at hm2
      rw [hm2, hm1] at hRK
      have hm21 : m2 < m1 := Nat.lt_of_mul_lt_mul_right hRK
      have := Nat.mul_le_mul_right (2 ^ (F32.ilog2 (k * 2 ^ 149) - 23)) (Nat.succ_le_of_lt hm21)
      rw [Nat.succ_mul, ← hm1, ← hm2] at this
      rw [← hm1] at hup1
      omega

end Clamp

section ClampOfModels

/-- A single-precision value below `1.0f` is at most `1 - 2^-24`. -/
theorem F32.value_below_one (x : F32) (hv : x.isValue = true) (hlt : x.units < F32.one) :
    x.units + 2 ^ 125 ≤ 2 ^ 149 := by
  have hlt2 : x.units < 2 ^ 149 := hlt
  have hmod : x.units % 2 ^ (F32.ilog2 x.units - 23) = 0 := beq_iff_eq.mp hv
  rcases Nat.eq_zero_or_pos x.units with h0 | hpos
  · rw [h0]
    norm_num
  · obtain ⟨hlo, hhi⟩ := F32.ilog2_spec x.units hpos
    by_cases hL : F32.ilog2 x.units ≤ 147
    · have : 2 ^ (F32.ilog2 x.units + 1) ≤ 2 ^ 148 :=
        Nat.pow_le_pow_right (by norm_num) (by omega)
      omega
    · have h1 : 2 ^ F32.ilog2 x.units < 2 ^ 149 := by omega
      have h2 := (Nat.pow_lt_pow_iff_right (by norm_num : 1 < 2)).mp h1
      have h148 : F32.ilog2 x.units = 148 := by omega
      rw [h148] at hmod
      obtain ⟨c, hc⟩ := Nat.dvd_of_mod_eq_zero hmod
      norm_num at hc
      omega

/-- In single precision, for every collection size `k > 0` and every value `u`
below `1.0f`, the unclamped index is at most `k - 1`. -/
theorem binary32_unclamped_lt (k : Nat) (u : F32) (hk : 0 < k) (hv : u.isValue = true)
    (hlt : u.units < F32.one) : unclampedIndex binary32 u k < k := by
  have h := F32.round_mul_size_lt u.units k (F32.value_below_one u hv hlt) hk
  show (F32.round (u.units * (F32.round (k * 2 ^ 149) 1).units) (2 ^ 149)).units / 2 ^ 149 < k
  exact Nat.div_lt_of_lt_mul (by rw [Nat.mul_comm (2 ^ 149) k]; exact h)

/-- In exact arithmetic the sample `1` gives the unclamped index `k`, and a
sample in `[0,1)` gives an unclamped index below `k`. -/
theorem exact_unclamped (k : Nat) (hk : 0 < k) :
    unclampedIndex exactArith 1 k = k ∧
    ∀ u : ℚ, 0 ≤ u → u < 1 → unclampedIndex exactArith u k < k := by
  have hkq : (0 : ℚ) < (k : ℚ) := by exact_mod_cast hk
  constructor
  · show ⌊(1 : ℚ) * (k : ℚ)⌋₊ = k
    rw [one_mul, Nat.floor_natCast]
  · intro u hu0 hu1
    show ⌊u * (k : ℚ)⌋₊ < k
    rw [Nat.floor_lt (mul_nonneg hu0 hkq.le)]
    calc u * (k : ℚ) < 1 * (k : ℚ) := mul_lt_mul_of_pos_right hu1 hkq
      _ = (k : ℚ) := one_mul _

end ClampOfModels

/-! ## C1: `draw()` returns an element of the collection -/

/-- C1: for every non-empty collection, every `n`, every pair of configuration
scalars and every sample `u` (under every interpretation of `float`), `draw()`
of the unpaired and of the paired model computes an index `rn` below the
collection size and returns the record at position `rn` of the original
collection; in particular `assert(rn < ts_.size())` of the unpaired `draw()`
does not fail. -/
theorem draw_returns_element_of_collection {F : Type} (A : FloatOps F)
    (tsU : List TemplateUnpaired) (tsP : List TemplatePaired) (n : Nat) (fe lsb u : F)
    (hU : tsU ≠ []) (hP : tsP ≠ []) :
    (∃ rn, ∃ h : rn < tsU.length,
        (InputModelUnpaired.new A tsU n fe lsb).drawIndex A u = .ok rn ∧
        (InputModelUnpaired.new A tsU n fe lsb).draw A u = .ok (tsU.get ⟨rn, h⟩)) ∧
    (InputModelUnpaired.new A tsU n fe lsb).drawIndex A u ≠ .error .rangeAssert ∧
    (∃ rn, ∃ h : rn < tsP.length,
        (InputModelPaired.new A tsP n fe lsb).drawIndex A u = .ok rn ∧
        (InputModelPaired.new A tsP n fe lsb).draw A u = .ok (tsP.get ⟨rn, h⟩)) := by
  have hiU := unpaired_drawIndex_of_ne_nil A (InputModelUnpaired.new A tsU n fe lsb) u hU
  have hiP := paired_drawIndex_of_ne_nil A (InputModelPaired.new A tsP n fe lsb) u hP
  obtain ⟨hltU, hdU⟩ :=
    unpaired_draw_of_ne_nil A (InputModelUnpaired.new A tsU n fe lsb) u hU
  obtain ⟨hltP, hdP⟩ :=
    paired_draw_of_ne_nil A (InputModelPaired.new A tsP n fe lsb) u hP
  refine ⟨⟨_, hltU, hiU, hdU⟩, ?_, ⟨_, hltP, hiP, hdP⟩⟩
  rw [hiU]
  exact fun h => by cases h

/-- C1 at a concrete input: single precision, collections of three records,
the sample nearest to `0.999999`. -/
theorem draw_returns_element_of_collection_witness :
    (([⟨5⟩, ⟨10⟩, ⟨15⟩] : List TemplateUnpaired) ≠ [] ∧
      ([⟨100⟩, ⟨200⟩, ⟨300⟩] : List TemplatePaired) ≠ []) ∧
    ((∃ rn, ∃ h : rn < ([⟨5⟩, ⟨10⟩, ⟨15⟩] : List TemplateUnpaired).length,
        (InputModelUnpaired.new binary32 [⟨5⟩, ⟨10⟩, ⟨15⟩] 3 ⟨0⟩ ⟨0⟩).drawIndex binary32
            (F32.ofRatio 999999 1000000) = .ok rn ∧
        (InputModelUnpaired.new binary32 [⟨5⟩, ⟨10⟩, ⟨15⟩] 3 ⟨0⟩ ⟨0⟩).draw binary32
            (F32.ofRatio 999999 1000000)
          = .ok (([⟨5⟩, ⟨10⟩, ⟨15⟩] : List TemplateUnpaired).get ⟨rn, h⟩)) ∧
    (InputModelUnpaired.new binary32 [⟨5⟩, ⟨10⟩, ⟨15⟩] 3 ⟨0⟩ ⟨0⟩).drawIndex binary32
        (F32.ofRatio 999999 1000000) ≠ .error .rangeAssert ∧
    (∃ rn, ∃ h : rn < ([⟨100⟩, ⟨200⟩, ⟨300⟩] : List TemplatePaired).length,
        (InputModelPaired.new binary32 [⟨100⟩, ⟨200⟩, ⟨300⟩] 3 ⟨0⟩ ⟨0⟩).drawIndex binary32
            (F32.ofRatio 999999 1000000) = .ok rn ∧
        (InputModelPaired.new binary32 [⟨100⟩, ⟨200⟩, ⟨300⟩] 3 ⟨0⟩ ⟨0⟩).draw binary32
            (F32.ofRatio 999999 1000000)
          = .ok (([⟨100⟩, ⟨200⟩, ⟨300⟩] : List TemplatePaired).get ⟨rn, h⟩))) :=
  ⟨⟨by decide, by decide⟩,
    draw_returns_element_of_collection binary32 [⟨5⟩, ⟨10⟩, ⟨15⟩] [⟨100⟩, ⟨200⟩, ⟨300⟩] 3 ⟨0⟩ ⟨0⟩
      (F32.ofRatio 999999 1000000) (by decide) (by decide)⟩

/-! ## C2: the index formula and the seeded sequence -/

section Sequence

/-- In single precision the samples `0.0`, `0.999999`, `0.5` give the indices
`0`, `2`, `1` when the collection has three records. -/
theorem binary32_indices_of_three :
    min (binary32.toNat (binary32.mul ⟨0⟩ (binary32.ofNat 3))) (3 - 1) = 0 ∧
    min (binary32.toNat (binary32.mul (F32.ofRatio 999999 1000000) (binary32.ofNat 3))) (3 - 1) = 2 ∧
    min (binary32.toNat (binary32.mul (F32.ofRatio 1 2) (binary32.ofNat 3))) (3 - 1) = 1 := by
  decide!

/-- In exact arithmetic the samples `0`, `999999/1000000`, `1/2` give the
indices `0`, `2`, `1` when the collection has three records. -/
theorem exactArith_indices_of_three :
    min (exactArith.toNat (exactArith.mul 0 (exactArith.ofNat 3))) (3 - 1) = 0 ∧
    min (exactArith.toNat (exactArith.mul (999999 / 1000000) (exactArith.ofNat 3))) (3 - 1) = 2 ∧
    min (exactArith.toNat (exactArith.mul (1 / 2) (exactArith.ofNat 3))) (3 - 1) = 1 := by
  decide!

theorem unpaired_draw_eq_of_index {F : Type} (A : FloatOps F)
    (m : InputModelUnpaired F) (u : F) (i : Nat) (t : TemplateUnpaired) (h : m.ts_ ≠ [])
    (hi : min (A.toNat (A.mul u (A.ofNat m.ts_.length))) (m.ts_.length - 1) = i)
    (ht : m.ts_[i]? = some t) :
    m.drawIndex A u = .ok i ∧ m.draw A u = .ok t := by
  have hidx : m.drawIndex A u = .ok i := by
    rw [unpaired_drawIndex_of_ne_nil A m u h, hi]
  refine ⟨hidx, ?_⟩
  simp [InputModelUnpaired.draw, hidx, ht]

theorem paired_draw_eq_of_index {F : Type} (A : FloatOps F)
    (m : InputModelPaired F) (u : F) (i : Nat) (t : TemplatePaired) (h : m.ts_ ≠ [])
    (hi : min (A.toNat (A.mul u (A.ofNat m.ts_.length))) (m.ts_.length - 1) = i)
    (ht : m.ts_[i]? = some t) :
    m.drawIndex A u = .ok i ∧ m.draw A u = .ok t := by
  have hidx : m.drawIndex A u = .ok i := by
    rw [paired_drawIndex_of_ne_nil A m u h, hi]
  refine ⟨hidx, ?_⟩
  simp [InputModelPaired.draw, hidx, ht]

/-- The conversion `(size_t)x` of a single-precision value is the floor of its
rational value. -/
theorem binary32_toNat_eq_floor (x : F32) : binary32.toNat x = ⌊F32.toRat x⌋₊ := by
  have h : ((2 : ℚ) ^ 149) = ((2 ^ 149 : ℕ) : ℚ) := by norm_cast
  show x.units / 2 ^ 149 = ⌊(x.units : ℚ) / 2 ^ 149⌋₊
  rw [h, Nat.floor_div_eq_div]

end Sequence

section Bracket

/-- The rounding function does not leave an interval whose ends lie on the
grid of the spacing it uses: if `lo ≤ p / q ≤ hi` and the spacing divides `lo`
and `hi`, the rounded value lies between `lo` and `hi`. -/
theorem F32.round_between (p q lo hi : Nat) (hq : 0 < q)
    (hlo : 2 ^ (F32.ilog2 (p / q) - 23) ∣ lo) (hhi : 2 ^ (F32.ilog2 (p / q) - 23) ∣ hi)
    (hlop : lo * q ≤ p) (hhip : p ≤ hi * q) :
    lo ≤ (F32.round p q).units ∧ (F32.round p q).units ≤ hi := by
  obtain ⟨m, hm, _, hup, hdn, _⟩ := F32.round_nearest p q hq
  have hE : 0 < 2 ^ (F32.ilog2 (p / q) - 23) := Nat.pos_pow_of_pos _ (by norm_num)
  obtain ⟨c, hc⟩ := hlo
  obtain ⟨d, hd⟩ := hhi
  rw [hm]
  generalize 2 ^ (F32.ilog2 (p / q) - 23) = E at hE hc hd hup hdn
  have hqE : 0 < q * E := Nat.mul_pos hq hE
  constructor
  · by_contra hlt
    have hmc : m < c := by
      apply Nat.lt_of_mul_lt_mul_right (a := E)
      rw [hc, Nat.mul_comm E c] at hlt
      omega
    have h1 : (m + 1) * E * q ≤ c * E * q :=
      Nat.mul_le_mul_right q (Nat.mul_le_mul_right E hmc)
    have h2 : (m + 1) * E * q = m * E * q + q * E := by ring
    have h3 : c * E * q = lo * q := by rw [hc]; ring
    generalize m * E * q = X at hdn h2
    omega
  · by_contra hgt
    have hdm : d < m := by
      apply Nat.lt_of_mul_lt_mul_right (a := E)
      rw [hd, Nat.mul_comm E d] at hgt
      omega
    have h1 : (d + 1) * E * q ≤ m * E * q :=
      Nat.mul_le_mul_right q (Nat.mul_le_mul_right E hdm)
    have h2 : (d + 1) * E * q = d * E * q + q * E := by ring
    have h3 : d * E * q = hi * q := by rw [hd]; ring
    generalize m * E * q = X at hup h1
    omega

/-- The floor of the exact product of a single-precision sample and a size. -/
theorem F32.floor_toRat_mul (u : F32) (k : Nat) :
    ⌊F32.toRat u * (k : ℚ)⌋₊ = u.units * k / 2 ^ 149 := by
  have h : F32.toRat u * (k : ℚ) = ((u.units * k : Nat) : ℚ) / ((2 ^ 149 : Nat) : ℚ) := by
    unfold F32.toRat
    push_cast
    ring
  rw [h, Nat.floor_div_eq_div]

/-- In single precision, for a collection size `k ≤ 2^24` and a sample below
`1.0f`, the unclamped index is the floor of the exact product `u * k` or that
floor plus one. -/
theorem binary32_unclamped_bracket (k : Nat) (u : F32) (hk : k ≤ 2 ^ 24)
    (hlt : u.units < F32.one) :
    ⌊F32.toRat u * (k : ℚ)⌋₊ ≤ unclampedIndex binary32 u k ∧
    unclampedIndex binary32 u k ≤ ⌊F32.toRat u * (k : ℚ)⌋₊ + 1 := by
  have hlt2 : u.units < 2 ^ 149 := hlt
  rw [F32.floor_toRat_mul]
  show u.units * k / 2 ^ 149
      ≤ (F32.round (u.units * (binary32.ofNat k).units) (2 ^ 149)).units / 2 ^ 149 ∧
    (F32.round (u.units * (binary32.ofNat k).units) (2 ^ 149)).units / 2 ^ 149
      ≤ u.units * k / 2 ^ 149 + 1
  rw [binary32_ofNat_exact k hk]
  show u.units * k / 2 ^ 149
      ≤ (F32.round (u.units * (k * 2 ^ 149)) (2 ^ 149)).units / 2 ^ 149 ∧
    (F32.round (u.units * (k * 2 ^ 149)) (2 ^ 149)).units / 2 ^ 149
      ≤ u.units * k / 2 ^ 149 + 1
  have hp : u.units * (k * 2 ^ 149) = u.units * k * 2 ^ 149 := by ring
  have hdiv : u.units * (k * 2 ^ 149) / 2 ^ 149 = u.units * k := by
    rw [hp]
    exact Nat.mul_div_cancel _ (by norm_num)
  -- the spacing of the product divides `2^149`
  have hN : u.units * k < 2 ^ 173 := by
    calc u.units * k ≤ u.units * 2 ^ 24 := Nat.mul_le_mul_left _ hk
      _ < 2 ^ 149 * 2 ^ 24 := Nat.mul_lt_mul_of_pos_right hlt2 (by norm_num)
      _ = 2 ^ 173 := by norm_num
  have he : F32.ilog2 (u.units * k) - 23 ≤ 149 := by
    rcases Nat.eq_zero_or_pos (u.units * k) with h0 | hpos
    · rw [h0, F32.ilog2_zero]
      omega
    · obtain ⟨hlo, _⟩ := F32.ilog2_spec _ hpos
      have h1 : 2 ^ F32.ilog2 (u.units * k) < 2 ^ 173 := by omega
      have := (Nat.pow_lt_pow_iff_right (by norm_num : 1 < 2)).mp h1
      omega
  have hdvd : 2 ^ (F32.ilog2 (u.units * (k * 2 ^ 149) / 2 ^ 149) - 23) ∣ 2 ^ 149 := by
    rw [hdiv]
    exact Nat.pow_dvd_pow 2 he
  have hfl := Nat.div_mul_le_self (u.units * k) (2 ^ 149)
  have hcl := Nat.lt_div_mul_add (a := u.units * k) (b := 2 ^ 149) (by norm_num)
  obtain ⟨h1, h2⟩ := F32.round_between (u.units * (k * 2 ^ 149)) (2 ^ 149)
    (u.units * k / 2 ^ 149 * 2 ^ 149) ((u.units * k / 2 ^ 149 + 1) * 2 ^ 149) (by norm_num)
    (Dvd.dvd.mul_left hdvd _) (Dvd.dvd.mul_left hdvd _)
    (by rw [hp]; exact Nat.mul_le_mul_right _ hfl)
    (by rw [hp]; exact Nat.mul_le_mul_right _ (by omega))
  constructor
  · exact (Nat.le_div_iff_mul_le (by norm_num)).mpr h1
  · exact Nat.div_le_of_le_mul
      (by rw [Nat.mul_comm (2 ^ 149) (u.units * k / 2 ^ 149 + 1)]; exact h2)

/-- In single precision, for a collection size `0 < k ≤ 2^24` and a sample
below `1.0f`, the clamped index is the floor of the exact product `u * k` or
that floor plus one. -/
theorem binary32_clamped_bracket (k : Nat) (u : F32) (hk0 : 0 < k) (hk : k ≤ 2 ^ 24)
    (hlt : u.units < F32.one) :
    ⌊F32.toRat u * (k : ℚ)⌋₊ ≤ min (unclampedIndex binary32 u k) (k - 1) ∧
    min (unclampedIndex binary32 u k) (k - 1) ≤ ⌊F32.toRat u * (k : ℚ)⌋₊ + 1 := by
  obtain ⟨h1, h2⟩ := binary32_unclamped_bracket k u hk hlt
  have hfl : ⌊F32.toRat u * (k : ℚ)⌋₊ < k := by
    rw [F32.floor_toRat_mul]
    apply Nat.div_lt_of_lt_mul
    exact Nat.mul_lt_mul_of_pos_right hlt hk0
  constructor
  · exact le_min h1 (by omega)
  · exact le_trans (min_le_left _ _) h2

end Bracket

/-- C2 fails in single precision: the product `u * k` is rounded before it is
truncated.  Over six records the sample `u = 13981013 / 2^24` (`0.8333333f`)
lies in `[0,1)` and `min ⌊u * 6⌋ (6 - 1) = 4`, but the product rounds to `5.0f`
and `draw()` (unpaired and paired) chooses index `5`; over ten records the
sample `11744051 / 2^24` (`0.7f`) has `min ⌊u * 10⌋ (10 - 1) = 6`, but
`draw()` chooses index `7`. -/
theorem draw_index_differs_from_floor_in_single_precision :
    ((0 ≤ F32.toRat ⟨13981013 * 2 ^ 125⟩ ∧ F32.toRat ⟨13981013 * 2 ^ 125⟩ < 1) ∧
      F32.isValue ⟨13981013 * 2 ^ 125⟩ = true ∧
      min ⌊F32.toRat ⟨13981013 * 2 ^ 125⟩ * ((6 : Nat) : ℚ)⌋₊ (6 - 1) = 4 ∧
      (InputModelUnpaired.new binary32 (List.replicate 6 ⟨1⟩) 6 ⟨0⟩ ⟨0⟩).drawIndex binary32
          ⟨13981013 * 2 ^ 125⟩ = .ok 5 ∧
      (InputModelPaired.new binary32 (List.replicate 6 ⟨1⟩) 6 ⟨0⟩ ⟨0⟩).drawIndex binary32
          ⟨13981013 * 2 ^ 125⟩ = .ok 5 ∧
      (InputModelUnpaired.new binary32 (List.replicate 6 ⟨1⟩) 6 ⟨0⟩ ⟨0⟩).drawIndex binary32
          ⟨13981013 * 2 ^ 125⟩
        ≠ .ok (min ⌊F32.toRat ⟨13981013 * 2 ^ 125⟩
            * (((List.replicate 6 (⟨1⟩ : TemplateUnpaired)).length : Nat) : ℚ)⌋₊
            ((List.replicate 6 (⟨1⟩ : TemplateUnpaired)).length - 1))) ∧
    ((0 ≤ F32.toRat ⟨11744051 * 2 ^ 125⟩ ∧ F32.toRat ⟨11744051 * 2 ^ 125⟩ < 1) ∧
      F32.isValue ⟨11744051 * 2 ^ 125⟩ = true ∧
      min ⌊F32.toRat ⟨11744051 * 2 ^ 125⟩ * ((10 : Nat) : ℚ)⌋₊ (10 - 1) = 6 ∧
      (InputModelUnpaired.new binary32 (List.replicate 10 ⟨1⟩) 10 ⟨0⟩ ⟨0⟩).drawIndex binary32
          ⟨11744051 * 2 ^ 125⟩ = .ok 7 ∧
      (InputModelPaired.new binary32 (List.replicate 10 ⟨1⟩) 10 ⟨0⟩ ⟨0⟩).drawIndex binary32
          ⟨11744051 * 2 ^ 125⟩ = .ok 7) := by
  decide!

/-- C2, amended: for every non-empty collection of size `k` and every sample
`u`, the index chosen by `draw()` (unpaired and paired) is
`min (floor p) (k - 1)`, where `p` is the `float` product of `u` and the size
converted to `float`.  In exact arithmetic `p = u * k`, and the index is
`min ⌊u * k⌋ (k - 1)` for every `u` in `[0,1)`.  In single precision `p` is the
rounded product, the index is the floor of its value clamped to `k - 1`, and
for `k ≤ 2^24` and `u` below `1.0f` the index is `⌊u * k⌋` or `⌊u * k⌋ + 1`.
With a source yielding `0.0`, `0.999999`, `0.5` over a three-element
collection, three successive `draw()` calls return the records at indices `0`,
`2`, `1`, both in single precision and in exact arithmetic. -/
theorem draw_index_is_clamped_floor_of_float_product {F : Type} (A : FloatOps F)
    (tsU : List TemplateUnpaired) (tsP : List TemplatePaired) (n : Nat) (fe lsb u : F)
    (hU : tsU ≠ []) (hP : tsP ≠ []) :
    ((InputModelUnpaired.new A tsU n fe lsb).drawIndex A u
        = .ok (min (A.toNat (A.mul u (A.ofNat tsU.length))) (tsU.length - 1)) ∧
      (InputModelPaired.new A tsP n fe lsb).drawIndex A u
        = .ok (min (A.toNat (A.mul u (A.ofNat tsP.length))) (tsP.length - 1))) ∧
    (∀ (q fe' lsb' : ℚ), 0 ≤ q → q < 1 →
      (InputModelUnpaired.new exactArith tsU n fe' lsb').drawIndex exactArith q
        = .ok (min ⌊q * (tsU.length : ℚ)⌋₊ (tsU.length - 1)) ∧
      (InputModelPaired.new exactArith tsP n fe' lsb').drawIndex exactArith q
        = .ok (min ⌊q * (tsP.length : ℚ)⌋₊ (tsP.length - 1))) ∧
    (∀ (v fe' lsb' : F32),
      (InputModelUnpaired.new binary32 tsU n fe' lsb').drawIndex binary32 v
        = .ok (min ⌊F32.toRat (binary32.mul v (binary32.ofNat tsU.length))⌋₊
            (tsU.length - 1)) ∧
      (InputModelPaired.new binary32 tsP n fe' lsb').drawIndex binary32 v
        = .ok (min ⌊F32.toRat (binary32.mul v (binary32.ofNat tsP.length))⌋₊
            (tsP.length - 1))) ∧
    (∀ (v fe' lsb' : F32), v.units < F32.one →
      (tsU.length ≤ 2 ^ 24 →
        ∃ i, (InputModelUnpaired.new binary32 tsU n fe' lsb').drawIndex binary32 v = .ok i ∧
          ⌊F32.toRat v * (tsU.length : ℚ)⌋₊ ≤ i ∧
          i ≤ ⌊F32.toRat v * (tsU.length : ℚ)⌋₊ + 1) ∧
      (tsP.length ≤ 2 ^ 24 →
        ∃ j, (InputModelPaired.new binary32 tsP n fe' lsb').drawIndex binary32 v = .ok j ∧
          ⌊F32.toRat v * (tsP.length : ℚ)⌋₊ ≤ j ∧
          j ≤ ⌊F32.toRat v * (tsP.length : ℚ)⌋₊ + 1)) ∧
    (∀ x : F32, binary32.toNat x = ⌊F32.toRat x⌋₊) ∧
    (∀ (a b c : TemplateUnpaired) (a' b' c' : TemplatePaired),
      (InputModelUnpaired.new binary32 [a, b, c] n ⟨0⟩ ⟨0⟩).draws binary32
          [⟨0⟩, F32.ofRatio 999999 1000000, F32.ofRatio 1 2] = [.ok a, .ok c, .ok b] ∧
      (InputModelPaired.new binary32 [a', b', c'] n ⟨0⟩ ⟨0⟩).draws binary32
          [⟨0⟩, F32.ofRatio 999999 1000000, F32.ofRatio 1 2] = [.ok a', .ok c', .ok b'] ∧
      [⟨0⟩, F32.ofRatio 999999 1000000, F32.ofRatio 1 2].map
          ((InputModelUnpaired.new binary32 [a, b, c] n ⟨0⟩ ⟨0⟩).drawIndex binary32)
        = [.ok 0, .ok 2, .ok 1] ∧
      [⟨0⟩, F32.ofRatio 999999 1000000, F32.ofRatio 1 2].map
          ((InputModelPaired.new binary32 [a', b', c'] n ⟨0⟩ ⟨0⟩).drawIndex binary32)
        = [.ok 0, .ok 2, .ok 1] ∧
      (InputModelUnpaired.new exactArith [a, b, c] n 0 0).draws exactArith
          [0, 999999 / 1000000, 1 / 2] = [.ok a, .ok c, .ok b] ∧
      (InputModelPaired.new exactArith [a', b', c'] n 0 0).draws exactArith
          [0, 999999 / 1000000, 1 / 2] = [.ok a', .ok c', .ok b']) := by
  have hposU : 0 < tsU.length := List.length_pos.mpr hU
  have hposP : 0 < tsP.length := List.length_pos.mpr hP
  refine ⟨⟨?_, ?_⟩, ?_, ?_, ?_, binary32_toNat_eq_floor, ?_⟩
  · exact unpaired_drawIndex_of_ne_nil A (InputModelUnpaired.new A tsU n fe lsb) u hU
  · exact paired_drawIndex_of_ne_nil A (InputModelPaired.new A tsP n fe lsb) u hP
  · intro q fe' lsb' _ _
    exact ⟨unpaired_drawIndex_of_ne_nil exactArith
        (InputModelUnpaired.new exactArith tsU n fe' lsb') q hU,
      paired_drawIndex_of_ne_nil exactArith
        (InputModelPaired.new exactArith tsP n fe' lsb') q hP⟩
  · intro v fe' lsb'
    constructor
    · rw [unpaired_drawIndex_of_ne_nil binary32
        (InputModelUnpaired.new binary32 tsU n fe' lsb') v hU, binary32_toNat_eq_floor]
      rfl
    · rw [paired_drawIndex_of_ne_nil binary32
        (InputModelPaired.new binary32 tsP n fe' lsb') v hP, binary32_toNat_eq_floor]
      rfl
  · intro v fe' lsb' hv
    constructor
    · intro hk
      exact ⟨_, unpaired_drawIndex_of_ne_nil binary32
          (InputModelUnpaired.new binary32 tsU n fe' lsb') v hU,
        binary32_clamped_bracket tsU.length v hposU hk hv⟩
    · intro hk
      exact ⟨_, paired_drawIndex_of_ne_nil binary32
          (InputModelPaired.new binary32 tsP n fe' lsb') v hP,
        binary32_clamped_bracket tsP.length v hposP hk hv⟩
  · intro a b c a' b' c'
    obtain ⟨h0, h2, h1⟩ := binary32_indices_of_three
    obtain ⟨e0, e2, e1⟩ := exactArith_indices_of_three
    have u0 := unpaired_draw_eq_of_index binary32
      (InputModelUnpaired.new binary32 [a, b, c] n ⟨0⟩ ⟨0⟩) ⟨0⟩ 0 a (by simp) h0 rfl
    have u2 := unpaired_draw_eq_of_index binary32
      (InputModelUnpaired.new binary32 [a, b, c] n ⟨0⟩ ⟨0⟩) (F32.ofRatio 999999 1000000) 2 c
      (by simp) h2 rfl
    have u1 := unpaired_draw_eq_of_index binary32
      (InputModelUnpaired.new binary32 [a, b, c] n ⟨0⟩ ⟨0⟩) (F32.ofRatio 1 2) 1 b
      (by simp) h1 rfl
    have p0 := paired_draw_eq_of_index binary32
      (InputModelPaired.new binary32 [a', b', c'] n ⟨0⟩ ⟨0⟩) ⟨0⟩ 0 a' (by simp) h0 rfl
    have p2 := paired_draw_eq_of_index binary32
      (InputModelPaired.new binary32 [a', b', c'] n ⟨0⟩ ⟨0⟩) (F32.ofRatio 999999 1000000) 2 c'
      (by simp) h2 rfl
    have p1 := paired_draw_eq_of_index binary32
      (InputModelPaired.new binary32 [a', b', c'] n ⟨0⟩ ⟨0⟩) (F32.ofRatio 1 2) 1 b'
      (by simp) h1 rfl
    have x0 := unpaired_draw_eq_of_index exactArith
      (InputModelUnpaired.new exactArith [a, b, c] n 0 0) 0 0 a (by simp) e0 rfl
    have x2 := unpaired_draw_eq_of_index exactArith
      (InputModelUnpaired.new exactArith [a, b, c] n 0 0) (999999 / 1000000) 2 c
      (by simp) e2 rfl
    have x1 := unpaired_draw_eq_of_index exactArith
      (InputModelUnpaired.new exactArith [a, b, c] n 0 0) (1 / 2) 1 b (by simp) e1 rfl
    have y0 := paired_draw_eq_of_index exactArith
      (InputModelPaired.new exactArith [a', b', c'] n 0 0) 0 0 a' (by simp) e0 rfl
    have y2 := paired_draw_eq_of_index exactArith
      (InputModelPaired.new exactArith [a', b', c'] n 0 0) (999999 / 1000000) 2 c'
      (by simp) e2 rfl
    have y1 := paired_draw_eq_of_index exactArith
      (InputModelPaired.new exactArith [a', b', c'] n 0 0) (1 / 2) 1 b' (by simp) e1 rfl
    refine ⟨?_, ?_, ?_, ?_, ?_, ?_⟩
    · simp only [InputModelUnpaired.draws, u0.2, u2.2, u1.2]
    · simp only [InputModelPaired.draws, p0.2, p2.2, p1.2]
    · simp only [List.map, u0.1, u2.1, u1.1]
    · simp only [List.map, p0.1, p2.1, p1.1]
    · simp only [InputModelUnpaired.draws, x0.2, x2.2, x1.2]
    · simp only [InputModelPaired.draws, y0.2, y2.2, y1.2]

/-- C2 amended, at a concrete input: single precision, three records, the
sample nearest to `0.999999`. -/
theorem draw_index_is_clamped_floor_of_float_product_witness :
    (([⟨5⟩, ⟨10⟩, ⟨15⟩] : List TemplateUnpaired) ≠ [] ∧
      ([⟨100⟩, ⟨200⟩, ⟨300⟩] : List TemplatePaired) ≠ []) ∧
    ((InputModelUnpaired.new binary32 [⟨5⟩, ⟨10⟩, ⟨15⟩] 3 ⟨0⟩ ⟨0⟩).drawIndex binary32
        (F32.ofRatio 999999 1000000)
      = .ok (min (binary32.toNat (binary32.mul (F32.ofRatio 999999 1000000)
          (binary32.ofNat ([⟨5⟩, ⟨10⟩, ⟨15⟩] : List TemplateUnpaired).length)))
          (([⟨5⟩, ⟨10⟩, ⟨15⟩] : List TemplateUnpaired).length - 1)) ∧
      (InputModelPaired.new binary32 [⟨100⟩, ⟨200⟩, ⟨300⟩] 3 ⟨0⟩ ⟨0⟩).drawIndex binary32
        (F32.ofRatio 999999 1000000)
      = .ok (min (binary32.toNat (binary32.mul (F32.ofRatio 999999 1000000)
          (binary32.ofNat ([⟨100⟩, ⟨200⟩, ⟨300⟩] : List TemplatePaired).length)))
          (([⟨100⟩, ⟨200⟩, ⟨300⟩] : List TemplatePaired).length - 1))) :=
  ⟨⟨by decide, by decide⟩,
    (draw_index_is_clamped_floor_of_float_product binary32 [⟨5⟩, ⟨10⟩, ⟨15⟩] [⟨100⟩, ⟨200⟩, ⟨300⟩] 3 ⟨0⟩ ⟨0⟩
      (F32.ofRatio 999999 1000000) (by decide) (by decide)).1⟩

/-! ## C3: `draw()` on an empty model -/

/-- C3: on a model built over the empty collection, `draw()` (unpaired and
paired) fails at `assert(!empty())` for every sample `u`, every `n` and every
pair of configuration scalars, under every interpretation of `float`: no
index is computed and no record is returned. -/
theorem draw_on_empty_fails {F : Type} (A : FloatOps F) (n : Nat) (fe lsb u : F) :
    (InputModelUnpaired.new A [] n fe lsb).draw A u = .error .emptyAssert ∧
    (InputModelUnpaired.new A [] n fe lsb).drawIndex A u = .error .emptyAssert ∧
    (∀ t, (InputModelUnpaired.new A [] n fe lsb).draw A u ≠ .ok t) ∧
    (InputModelPaired.new A [] n fe lsb).draw A u = .error .emptyAssert ∧
    (InputModelPaired.new A [] n fe lsb).drawIndex A u = .error .emptyAssert ∧
    (∀ t, (InputModelPaired.new A [] n fe lsb).draw A u ≠ .ok t) := by
  have hU : (InputModelUnpaired.new A [] n fe lsb).drawIndex A u = .error .emptyAssert := by
    simp [InputModelUnpaired.drawIndex, InputModelUnpaired.empty]
  have hP : (InputModelPaired.new A [] n fe lsb).drawIndex A u = .error .emptyAssert := by
    simp [InputModelPaired.drawIndex, InputModelPaired.empty]
  have dU : (InputModelUnpaired.new A [] n fe lsb).draw A u = .error .emptyAssert := by
    simp only [InputModelUnpaired.draw, hU]
  have dP : (InputModelPaired.new A [] n fe lsb).draw A u = .error .emptyAssert := by
    simp only [InputModelPaired.draw, hP]
  refine ⟨dU, hU, ?_, dP, hP, ?_⟩
  · intro t h
    rw [dU] at h
    cases h
  · intro t h
    rw [dP] at h
    cases h

/-! ## C4: `avg_len()` and the arithmetic mean -/

section Mean

/-- In exact arithmetic the `avg` accumulator of a statistics loop with divisor
`k` ends at its initial value plus the sum of the visited lengths over `k`,
whatever the loop does to the `max` accumulator. -/
theorem statsLoop_exact_avg {T : Type} (len : T → Nat) (g : Stats ℚ → T → Nat) (k : Nat)
    (ts : List T) :
    ∀ st : Stats ℚ,
      (ts.foldl (fun s t => ({ avg := s.avg + (len t : ℚ) / (k : ℚ), max := g s t } : Stats ℚ))
        st).avg = st.avg + (((ts.map len).sum : Nat) : ℚ) / (k : ℚ) := by
  induction ts with
  | nil => intro st; simp
  | cons a l ih =>
    intro st
    simp only [List.foldl_cons, List.map_cons, List.sum_cons]
    rw [ih]
    push_cast
    ring

/-- In exact arithmetic `avg_len()` of the unpaired model is the sum of the
reference lengths over the collection size. -/
theorem unpaired_exact_avg_len (ts : List TemplateUnpaired) (n : Nat) (fe lsb : ℚ) :
    (InputModelUnpaired.new exactArith ts n fe lsb).avg_len
      = (((ts.map TemplateUnpaired.reflen).sum : Nat) : ℚ) / (ts.length : ℚ) := by
  have h := statsLoop_exact_avg TemplateUnpaired.reflen
    (fun s t => max s.max t.reflen) ts.length ts { avg := 0, max := 0 }
  simp only [zero_add] at h
  exact h

end Mean

/-- C4 fails in single precision: over ten records of reference length `1` the
constructor adds the rounded quotient `1/10` ten times, each sum rounded, and
`avg_len()` is `8388609 / 8388608` (`1.0000001f`), which is not the arithmetic
mean `10 / 10 = 1`, although `1` is representable. -/
theorem avg_len_differs_from_mean_in_single_precision :
    (InputModelUnpaired.new binary32 (List.replicate 10 ⟨1⟩) 10 ⟨0⟩ ⟨0⟩).avg_len
      = ⟨8388609 * 2 ^ 126⟩ ∧
    F32.toRat (InputModelUnpaired.new binary32 (List.replicate 10 ⟨1⟩) 10 ⟨0⟩ ⟨0⟩).avg_len
      = 8388609 / 8388608 ∧
    F32.toRat (InputModelUnpaired.new binary32 (List.replicate 10 ⟨1⟩) 10 ⟨0⟩ ⟨0⟩).avg_len
      ≠ ((((List.replicate 10 (⟨1⟩ : TemplateUnpaired)).map TemplateUnpaired.reflen).sum : Nat) : ℚ)
          / (((List.replicate 10 (⟨1⟩ : TemplateUnpaired)).length : Nat) : ℚ) ∧
    (InputModelUnpaired.new binary32 (List.replicate 10 ⟨1⟩) 10 ⟨0⟩ ⟨0⟩).avg_len
      ≠ binary32.ofNat 1 := by
  decide!

/-- C4, amended: in exact arithmetic on the per-record quotients, `avg_len()`
of the constructed unpaired model is the arithmetic mean of the reference
lengths, (sum of all `reflen`) / (collection size), for every collection and
every `n`; under every interpretation of `float` it does not depend on `n`
(the divisor is the collection size); for records with lengths `[5, 10, 15]`
it is exactly `10.0` in single precision, and `10` in exact arithmetic also
when `n = 7`. -/
theorem avg_len_is_mean_in_exact_arithmetic {F : Type} (A : FloatOps F)
    (ts : List TemplateUnpaired) (n n' : Nat) (fe lsb : F) (fe' lsb' : ℚ) :
    (InputModelUnpaired.new exactArith ts n fe' lsb').avg_len
      = (((ts.map TemplateUnpaired.reflen).sum : Nat) : ℚ) / (ts.length : ℚ) ∧
    (InputModelUnpaired.new A ts n fe lsb).avg_len
      = (InputModelUnpaired.new A ts n' fe lsb).avg_len ∧
    (InputModelUnpaired.new binary32 [⟨5⟩, ⟨10⟩, ⟨15⟩] n ⟨0⟩ ⟨0⟩).avg_len = binary32.ofNat 10 ∧
    F32.toRat (InputModelUnpaired.new binary32 [⟨5⟩, ⟨10⟩, ⟨15⟩] n ⟨0⟩ ⟨0⟩).avg_len = 10 ∧
    (InputModelUnpaired.new exactArith [⟨5⟩, ⟨10⟩, ⟨15⟩] 7 fe' lsb').avg_len = 10 := by
  refine ⟨unpaired_exact_avg_len ts n fe' lsb', rfl, ?_, ?_, ?_⟩
  · have h : (InputModelUnpaired.new binary32 [⟨5⟩, ⟨10⟩, ⟨15⟩] 0 ⟨0⟩ ⟨0⟩).avg_len
        = binary32.ofNat 10 := by decide!
    exact h
  · have h : F32.toRat (InputModelUnpaired.new binary32 [⟨5⟩, ⟨10⟩, ⟨15⟩] 0 ⟨0⟩ ⟨0⟩).avg_len
        = 10 := by decide!
    exact h
  · rw [unpaired_exact_avg_len]
    norm_num

/-! ## C5: `max_len()` is the maximum record length -/

section Maximum

/-- The `max` accumulator of a statistics loop, whatever the loop does to the
`avg` accumulator: it never falls below its initial value, it bounds the length
of every visited record, and it is the initial value or the length of a visited
record. -/
theorem statsLoop_max_spec {F T : Type} (f : Stats F → T → F) (len : T → Nat) (ts : List T) :
    ∀ st : Stats F,
      st.max ≤ (ts.foldl (fun s t => ({ avg := f s t, max := max s.max (len t) } : Stats F)) st).max ∧
      (∀ t ∈ ts, len t ≤
        (ts.foldl (fun s t => ({ avg := f s t, max := max s.max (len t) } : Stats F)) st).max) ∧
      ((ts.foldl (fun s t => ({ avg := f s t, max := max s.max (len t) } : Stats F)) st).max = st.max ∨
        ∃ t ∈ ts, len t =
          (ts.foldl (fun s t => ({ avg := f s t, max := max s.max (len t) } : Stats F)) st).max) := by
  induction ts with
  | nil => intro st; simp
  | cons a l ih =>
    intro st
    obtain ⟨h1, h2, h3⟩ := ih { avg := f st a, max := max st.max (len a) }
    simp only [List.foldl_cons]
    refine ⟨le_trans (le_max_left _ _) h1, ?_, ?_⟩
    · intro t ht
      rcases List.mem_cons.mp ht with rfl | ht
      · exact le_trans (le_max_right _ _) h1
      · exact h2 t ht
    · rcases h3 with h3 | ⟨t, ht, h3⟩
      · rcases le_total st.max (len a) with hle | hle
        · right
          exact ⟨a, List.mem_cons_self _ _, by rw [h3]; exact (max_eq_right hle).symm⟩
        · left
          rw [h3]; exact max_eq_left hle
      · right
        exact ⟨t, List.mem_cons_of_mem _ ht, h3⟩

/-- The maximum computed by a statistics loop that starts at `0` over a
non-empty collection is the length of one of its records. -/
theorem statsLoop_max_attained {F T : Type} (f : Stats F → T → F) (len : T → Nat) (ts : List T)
    (a : F) (hne : ts ≠ []) :
    ∃ t ∈ ts, len t =
      (ts.foldl (fun s t => ({ avg := f s t, max := max s.max (len t) } : Stats F))
        { avg := a, max := 0 }).max := by
  obtain ⟨_, h2, h3⟩ := statsLoop_max_spec f len ts { avg := a, max := 0 }
  rcases h3 with h3 | h3
  · obtain ⟨t, l, rfl⟩ := List.exists_cons_of_ne_nil hne
    refine ⟨t, List.mem_cons_self _ _, ?_⟩
    have := h2 t (List.mem_cons_self _ _)
    simp only at h3
    omega
  · exact h3

end Maximum

/-- C5: for every non-empty collection, `max_len()` of the constructed model
(unpaired over `reflen()`, paired over `fraglen_`) is at least the length of
every record and is the length of one of the records; for records with lengths
`[5, 10, 15]` it is `15`. -/
theorem max_len_is_maximum {F : Type} (A : FloatOps F)
    (tsU : List TemplateUnpaired) (tsP : List TemplatePaired) (n : Nat) (fe lsb : F)
    (hU : tsU ≠ []) (hP : tsP ≠ []) :
    ((∀ t ∈ tsU, t.reflen ≤ (InputModelUnpaired.new A tsU n fe lsb).max_len) ∧
      (∃ t ∈ tsU, t.reflen = (InputModelUnpaired.new A tsU n fe lsb).max_len)) ∧
    ((∀ t ∈ tsP, t.fraglen_ ≤ (InputModelPaired.new A tsP n fe lsb).max_len) ∧
      (∃ t ∈ tsP, t.fraglen_ = (InputModelPaired.new A tsP n fe lsb).max_len)) ∧
    (InputModelUnpaired.new A [⟨5⟩, ⟨10⟩, ⟨15⟩] n fe lsb).max_len = 15 ∧
    (InputModelPaired.new A [⟨5⟩, ⟨10⟩, ⟨15⟩] n fe lsb).max_len = 15 := by
  refine ⟨⟨?_, ?_⟩, ⟨?_, ?_⟩, ?_, ?_⟩
  · exact (statsLoop_max_spec
      (fun s t => A.add s.avg (A.div (A.ofNat t.reflen) (A.ofNat tsU.length)))
      TemplateUnpaired.reflen tsU { avg := A.zero, max := 0 }).2.1
  · exact statsLoop_max_attained
      (fun s t => A.add s.avg (A.div (A.ofNat t.reflen) (A.ofNat tsU.length)))
      TemplateUnpaired.reflen tsU A.zero hU
  · exact (statsLoop_max_spec
      (fun s t => A.add s.avg (A.div (A.ofNat t.fraglen_) (A.ofNat tsP.length)))
      TemplatePaired.fraglen_ tsP { avg := A.zero, max := 0 }).2.1
  · exact statsLoop_max_attained
      (fun s t => A.add s.avg (A.div (A.ofNat t.fraglen_) (A.ofNat tsP.length)))
      TemplatePaired.fraglen_ tsP A.zero hP
  · rfl
  · rfl

/-- C5 at a concrete input: single precision, lengths `[7, 3]` and `[2, 9, 4]`. -/
theorem max_len_is_maximum_witness :
    (([⟨7⟩, ⟨3⟩] : List TemplateUnpaired) ≠ [] ∧
      ([⟨2⟩, ⟨9⟩, ⟨4⟩] : List TemplatePaired) ≠ []) ∧
    (((∀ t ∈ ([⟨7⟩, ⟨3⟩] : List TemplateUnpaired),
          t.reflen ≤ (InputModelUnpaired.new binary32 [⟨7⟩, ⟨3⟩] 2 ⟨0⟩ ⟨0⟩).max_len) ∧
      (∃ t ∈ ([⟨7⟩, ⟨3⟩] : List TemplateUnpaired),
          t.reflen = (InputModelUnpaired.new binary32 [⟨7⟩, ⟨3⟩] 2 ⟨0⟩ ⟨0⟩).max_len)) ∧
    ((∀ t ∈ ([⟨2⟩, ⟨9⟩, ⟨4⟩] : List TemplatePaired),
          t.fraglen_ ≤ (InputModelPaired.new binary32 [⟨2⟩, ⟨9⟩, ⟨4⟩] 2 ⟨0⟩ ⟨0⟩).max_len) ∧
      (∃ t ∈ ([⟨2⟩, ⟨9⟩, ⟨4⟩] : List TemplatePaired),
          t.fraglen_ = (InputModelPaired.new binary32 [⟨2⟩, ⟨9⟩, ⟨4⟩] 2 ⟨0⟩ ⟨0⟩).max_len)) ∧
    (InputModelUnpaired.new binary32 [⟨5⟩, ⟨10⟩, ⟨15⟩] 2 ⟨0⟩ ⟨0⟩).max_len = 15 ∧
    (InputModelPaired.new binary32 [⟨5⟩, ⟨10⟩, ⟨15⟩] 2 ⟨0⟩ ⟨0⟩).max_len = 15) :=
  ⟨⟨by decide, by decide⟩,
    max_len_is_maximum binary32 [⟨7⟩, ⟨3⟩] [⟨2⟩, ⟨9⟩, ⟨4⟩] 2 ⟨0⟩ ⟨0⟩ (by decide) (by decide)⟩

/-! ## C6: the empty collection -/

/-- C6: a model constructed from the empty collection, with any `n`,
`fraction_even` and `low_score_bias`, has `avg_len()` equal to `0.0f`,
`max_len()` equal to `0` and `empty()` true; this holds for the unpaired and
the paired model under every interpretation of `float`, and `0.0f` is `0` in
single precision and in exact arithmetic. -/
theorem empty_collection_statistics {F : Type} (A : FloatOps F) (n : Nat) (fe lsb : F) :
    ((InputModelUnpaired.new A [] n fe lsb).avg_len = A.zero ∧
      (InputModelUnpaired.new A [] n fe lsb).max_len = 0 ∧
      (InputModelUnpaired.new A [] n fe lsb).empty = true) ∧
    ((InputModelPaired.new A [] n fe lsb).avg_len = A.zero ∧
      (InputModelPaired.new A [] n fe lsb).max_len = 0 ∧
      (InputModelPaired.new A [] n fe lsb).empty = true) ∧
    F32.toRat binary32.zero = 0 ∧ exactArith.zero = 0 := by
  refine ⟨⟨rfl, rfl, rfl⟩, ⟨rfl, rfl, rfl⟩, ?_, rfl⟩
  simp [F32.toRat, binary32]

/-! ## C7: `num_added()` -/

/-- C7: for every collection and every `n`, `num_added()` of the constructed
model (unpaired and paired) is the `n` passed at construction, whatever the
collection size; with `n = 7` over a three-element collection `num_added()` is
`7`, which differs from the collection size `3`. -/
theorem num_added_is_constructor_argument {F : Type} (A : FloatOps F)
    (tsU : List TemplateUnpaired) (tsP : List TemplatePaired) (n : Nat) (fe lsb : F) :
    (InputModelUnpaired.new A tsU n fe lsb).num_added = n ∧
    (InputModelPaired.new A tsP n fe lsb).num_added = n ∧
    (∀ a b c : TemplateUnpaired,
      (InputModelUnpaired.new A [a, b, c] 7 fe lsb).num_added = 7 ∧
      (InputModelUnpaired.new A [a, b, c] 7 fe lsb).num_added
        ≠ (InputModelUnpaired.new A [a, b, c] 7 fe lsb).ts_.length) ∧
    (∀ a b c : TemplatePaired,
      (InputModelPaired.new A [a, b, c] 7 fe lsb).num_added = 7 ∧
      (InputModelPaired.new A [a, b, c] 7 fe lsb).num_added
        ≠ (InputModelPaired.new A [a, b, c] 7 fe lsb).ts_.length) := by
  refine ⟨rfl, rfl, ?_, ?_⟩
  · intro a b c
    exact ⟨rfl, by simp [InputModelUnpaired.num_added, InputModelUnpaired.new]⟩
  · intro a b c
    exact ⟨rfl, by simp [InputModelPaired.num_added, InputModelPaired.new]⟩

/-! ## C8: `empty()` -/

/-- C8: for every collection and every `n`, `empty()` of the constructed model
(unpaired and paired) is true exactly when the collection size is `0`; it does
not depend on `n`: over a one-element collection with `n = 0` it is false while
`num_added()` is `0`, and over the empty collection with `n = 5` it is true
while `num_added()` is positive. -/
theorem empty_iff_size_zero {F : Type} (A : FloatOps F)
    (tsU : List TemplateUnpaired) (tsP : List TemplatePaired) (n n' : Nat) (fe lsb : F) :
    ((InputModelUnpaired.new A tsU n fe lsb).empty = true ↔ tsU.length = 0) ∧
    ((InputModelPaired.new A tsP n fe lsb).empty = true ↔ tsP.length = 0) ∧
    (InputModelUnpaired.new A tsU n fe lsb).empty = (InputModelUnpaired.new A tsU n' fe lsb).empty ∧
    (InputModelPaired.new A tsP n fe lsb).empty = (InputModelPaired.new A tsP n' fe lsb).empty ∧
    (∀ t : TemplateUnpaired,
      (InputModelUnpaired.new A [t] 0 fe lsb).empty = false ∧
      (InputModelUnpaired.new A [t] 0 fe lsb).num_added = 0) ∧
    ((InputModelUnpaired.new A [] 5 fe lsb).empty = true ∧
      0 < (InputModelUnpaired.new A [] 5 fe lsb).num_added) ∧
    (∀ t : TemplatePaired,
      (InputModelPaired.new A [t] 0 fe lsb).empty = false ∧
      (InputModelPaired.new A [t] 0 fe lsb).num_added = 0) ∧
    ((InputModelPaired.new A [] 5 fe lsb).empty = true ∧
      0 < (InputModelPaired.new A [] 5 fe lsb).num_added) := by
  refine ⟨?_, ?_, rfl, rfl, fun t => ⟨rfl, rfl⟩, ⟨rfl, ?_⟩, fun t => ⟨rfl, rfl⟩, ⟨rfl, ?_⟩⟩
  · simp [InputModelUnpaired.empty, List.isEmpty_iff]
  · simp [InputModelPaired.empty, List.isEmpty_iff]
  · simp [InputModelUnpaired.num_added, InputModelUnpaired.new]
  · simp [InputModelPaired.num_added, InputModelPaired.new]

/-! ## C9: the configuration scalars are not read -/

/-- C9: `fraction_even` and `low_score_bias` have no effect: for every
collection, every `n` and every sample `u`, two models built with any two
pairs of values of these scalars give the same `draw()` result (index and
record), the same `avg_len()`, `max_len()`, `num_added()` and `empty()`; this
holds for the unpaired and the paired model under every interpretation of
`float`. -/
theorem configuration_scalars_have_no_effect {F : Type} (A : FloatOps F)
    (tsU : List TemplateUnpaired) (tsP : List TemplatePaired) (n : Nat)
    (fe₁ lsb₁ fe₂ lsb₂ u : F) :
    ((InputModelUnpaired.new A tsU n fe₁ lsb₁).draw A u
        = (InputModelUnpaired.new A tsU n fe₂ lsb₂).draw A u ∧
      (InputModelUnpaired.new A tsU n fe₁ lsb₁).drawIndex A u
        = (InputModelUnpaired.new A tsU n fe₂ lsb₂).drawIndex A u ∧
      (InputModelUnpaired.new A tsU n fe₁ lsb₁).avg_len
        = (InputModelUnpaired.new A tsU n fe₂ lsb₂).avg_len ∧
      (InputModelUnpaired.new A tsU n fe₁ lsb₁).max_len
        = (InputModelUnpaired.new A tsU n fe₂ lsb₂).max_len ∧
      (InputModelUnpaired.new A tsU n fe₁ lsb₁).num_added
        = (InputModelUnpaired.new A tsU n fe₂ lsb₂).num_added ∧
      (InputModelUnpaired.new A tsU n fe₁ lsb₁).empty
        = (InputModelUnpaired.new A tsU n fe₂ lsb₂).empty) ∧
    ((InputModelPaired.new A tsP n fe₁ lsb₁).draw A u
        = (InputModelPaired.new A tsP n fe₂ lsb₂).draw A u ∧
      (InputModelPaired.new A tsP n fe₁ lsb₁).drawIndex A u
        = (InputModelPaired.new A tsP n fe₂ lsb₂).drawIndex A u ∧
      (InputModelPaired.new A tsP n fe₁ lsb₁).avg_len
        = (InputModelPaired.new A tsP n fe₂ lsb₂).avg_len ∧
      (InputModelPaired.new A tsP n fe₁ lsb₁).max_len
        = (InputModelPaired.new A tsP n fe₂ lsb₂).max_len ∧
      (InputModelPaired.new A tsP n fe₁ lsb₁).num_added
        = (InputModelPaired.new A tsP n fe₂ lsb₂).num_added ∧
      (InputModelPaired.new A tsP n fe₁ lsb₁).empty
        = (InputModelPaired.new A tsP n fe₂ lsb₂).empty) :=
  ⟨⟨rfl, rfl, rfl, rfl, rfl, rfl⟩, ⟨rfl, rfl, rfl, rfl, rfl, rfl⟩⟩

/-! ## C10: which samples select which record -/

section Uniform

/-- In exact arithmetic, for a collection of size `k > 0` and a sample `u` in
`[0,1)`, the clamped index `min ⌊u * k⌋ (k - 1)` is `i` exactly when
`i / k ≤ u < (i + 1) / k`. -/
theorem exact_index_eq_iff (k i : Nat) (u : ℚ) (hk : 0 < k) (hu0 : 0 ≤ u) (hu1 : u < 1) :
    min (exactArith.toNat (exactArith.mul u (exactArith.ofNat k))) (k - 1) = i
      ↔ (i : ℚ) / (k : ℚ) ≤ u ∧ u < ((i : ℚ) + 1) / (k : ℚ) := by
  have hkq : (0 : ℚ) < (k : ℚ) := by exact_mod_cast hk
  have hnn : 0 ≤ u * (k : ℚ) := mul_nonneg hu0 hkq.le
  have hlt : u * (k : ℚ) < (k : ℚ) := by
    calc u * (k : ℚ) < 1 * (k : ℚ) := mul_lt_mul_of_pos_right hu1 hkq
      _ = (k : ℚ) := one_mul _
  have hfl : ⌊u * (k : ℚ)⌋₊ < k := (Nat.floor_lt hnn).mpr hlt
  have hmin : min ⌊u * (k : ℚ)⌋₊ (k - 1) = ⌊u * (k : ℚ)⌋₊ := by
    apply min_eq_left
    omega
  show min ⌊u * (k : ℚ)⌋₊ (k - 1) = i ↔ _
  rw [hmin, Nat.floor_eq_iff hnn, div_le_iff₀ hkq, lt_div_iff₀ hkq]

end Uniform

/-- C10 fails in single precision: over a six-element collection the sample
`u = 13981013 / 2^24` (`0.8333333f`, the value just below `5/6`) lies in
`[4/6, 5/6)`, yet the product `u * 6` rounds up to `5.0f` and `draw()` selects
index `5`, not index `4`, in the unpaired and in the paired model. -/
theorem draw_interval_fails_in_single_precision :
    (InputModelUnpaired.new binary32 (List.replicate 6 ⟨1⟩) 6 ⟨0⟩ ⟨0⟩).drawIndex binary32
        ⟨13981013 * 2 ^ 125⟩ = .ok 5 ∧
    (InputModelPaired.new binary32 (List.replicate 6 ⟨1⟩) 6 ⟨0⟩ ⟨0⟩).drawIndex binary32
        ⟨13981013 * 2 ^ 125⟩ = .ok 5 ∧
    F32.toRat ⟨13981013 * 2 ^ 125⟩ = 13981013 / 2 ^ 24 ∧
    (0 ≤ F32.toRat ⟨13981013 * 2 ^ 125⟩ ∧ F32.toRat ⟨13981013 * 2 ^ 125⟩ < 1) ∧
    ((4 : ℚ) / 6 ≤ F32.toRat ⟨13981013 * 2 ^ 125⟩ ∧
      F32.toRat ⟨13981013 * 2 ^ 125⟩ < ((4 : ℚ) + 1) / 6) ∧
    ¬ ((5 : ℚ) / 6 ≤ F32.toRat ⟨13981013 * 2 ^ 125⟩) := by
  decide!

/-- C10, amended: in exact arithmetic `draw()` is uniform over the collection:
for every collection of size `k > 0`, every index `i < k` and every `u` in
`[0,1)`, `draw()` (unpaired and paired) selects index `i` if and only if
`i/k ≤ u < (i+1)/k`; the sample `i/k` lies in `[0,1)` and selects `i`, so every
record is selected by some sample, and the interval of samples selecting a
record has length `1/k` for every record. -/
theorem draw_interval_in_exact_arithmetic
    (tsU : List TemplateUnpaired) (tsP : List TemplatePaired) (n i j : Nat) (fe lsb u : ℚ)
    (hu0 : 0 ≤ u) (hu1 : u < 1) (hi : i < tsU.length) (hj : j < tsP.length) :
    (((InputModelUnpaired.new exactArith tsU n fe lsb).drawIndex exactArith u = .ok i
        ↔ (i : ℚ) / (tsU.length : ℚ) ≤ u ∧ u < ((i : ℚ) + 1) / (tsU.length : ℚ)) ∧
      (0 ≤ (i : ℚ) / (tsU.length : ℚ) ∧ (i : ℚ) / (tsU.length : ℚ) < 1 ∧
        (InputModelUnpaired.new exactArith tsU n fe lsb).drawIndex exactArith
          ((i : ℚ) / (tsU.length : ℚ)) = .ok i) ∧
      ((i : ℚ) + 1) / (tsU.length : ℚ) - (i : ℚ) / (tsU.length : ℚ) = 1 / (tsU.length : ℚ)) ∧
    (((InputModelPaired.new exactArith tsP n fe lsb).drawIndex exactArith u = .ok j
        ↔ (j : ℚ) / (tsP.length : ℚ) ≤ u ∧ u < ((j : ℚ) + 1) / (tsP.length : ℚ)) ∧
      (0 ≤ (j : ℚ) / (tsP.length : ℚ) ∧ (j : ℚ) / (tsP.length : ℚ) < 1 ∧
        (InputModelPaired.new exactArith tsP n fe lsb).drawIndex exactArith
          ((j : ℚ) / (tsP.length : ℚ)) = .ok j) ∧
      ((j : ℚ) + 1) / (tsP.length : ℚ) - (j : ℚ) / (tsP.length : ℚ) = 1 / (tsP.length : ℚ)) := by
  have hkU : 0 < tsU.length := by omega
  have hkP : 0 < tsP.length := by omega
  have hneU : tsU ≠ [] := List.length_pos.mp hkU
  have hneP : tsP ≠ [] := List.length_pos.mp hkP
  have hqU : (0 : ℚ) < (tsU.length : ℚ) := by exact_mod_cast hkU
  have hqP : (0 : ℚ) < (tsP.length : ℚ) := by exact_mod_cast hkP
  have hiq : (i : ℚ) < (tsU.length : ℚ) := by exact_mod_cast hi
  have hjq : (j : ℚ) < (tsP.length : ℚ) := by exact_mod_cast hj
  have hi0 : 0 ≤ (i : ℚ) / (tsU.length : ℚ) := div_nonneg (Nat.cast_nonneg i) hqU.le
  have hj0 : 0 ≤ (j : ℚ) / (tsP.length : ℚ) := div_nonneg (Nat.cast_nonneg j) hqP.le
  have hi1 : (i : ℚ) / (tsU.length : ℚ) < 1 := (div_lt_one hqU).mpr hiq
  have hj1 : (j : ℚ) / (tsP.length : ℚ) < 1 := (div_lt_one hqP).mpr hjq
  have idxU : ∀ v : ℚ, (InputModelUnpaired.new exactArith tsU n fe lsb).drawIndex exactArith v
      = .ok (min (exactArith.toNat (exactArith.mul v (exactArith.ofNat tsU.length)))
          (tsU.length - 1)) := fun v =>
    unpaired_drawIndex_of_ne_nil exactArith
      (InputModelUnpaired.new exactArith tsU n fe lsb) v hneU
  have idxP : ∀ v : ℚ, (InputModelPaired.new exactArith tsP n fe lsb).drawIndex exactArith v
      = .ok (min (exactArith.toNat (exactArith.mul v (exactArith.ofNat tsP.length)))
          (tsP.length - 1)) := fun v =>
    paired_drawIndex_of_ne_nil exactArith
      (InputModelPaired.new exactArith tsP n fe lsb) v hneP
  refine ⟨⟨?_, ⟨hi0, hi1, ?_⟩, ?_⟩, ⟨?_, ⟨hj0, hj1, ?_⟩, ?_⟩⟩
  · rw [idxU u, Except.ok.injEq]
    exact exact_index_eq_iff tsU.length i u hkU hu0 hu1
  · rw [idxU, Except.ok.injEq]
    refine (exact_index_eq_iff tsU.length i _ hkU hi0 hi1).mpr ⟨le_refl _, ?_⟩
    exact div_lt_div_of_pos_right (by linarith) hqU
  · ring
  · rw [idxP u, Except.ok.injEq]
    exact exact_index_eq_iff tsP.length j u hkP hu0 hu1
  · rw [idxP, Except.ok.injEq]
    refine (exact_index_eq_iff tsP.length j _ hkP hj0 hj1).mpr ⟨le_refl _, ?_⟩
    exact div_lt_div_of_pos_right (by linarith) hqP
  · ring

/-- C10 amended, at a concrete input: three records, index `1`, sample `1/2`. -/
theorem draw_interval_in_exact_arithmetic_witness :
    ((0 : ℚ) ≤ 1 / 2 ∧ (1 / 2 : ℚ) < 1 ∧
      1 < ([⟨5⟩, ⟨10⟩, ⟨15⟩] : List TemplateUnpaired).length ∧
      1 < ([⟨100⟩, ⟨200⟩, ⟨300⟩] : List TemplatePaired).length) ∧
    ((InputModelUnpaired.new exactArith [⟨5⟩, ⟨10⟩, ⟨15⟩] 3 0 0).drawIndex exactArith (1 / 2)
        = .ok 1
      ↔ ((1 : Nat) : ℚ) / (([⟨5⟩, ⟨10⟩, ⟨15⟩] : List TemplateUnpaired).length : ℚ) ≤ 1 / 2 ∧
        (1 / 2 : ℚ) < (((1 : Nat) : ℚ) + 1)
          / (([⟨5⟩, ⟨10⟩, ⟨15⟩] : List TemplateUnpaired).length : ℚ)) :=
  ⟨⟨by norm_num, by norm_num, by decide, by decide⟩,
    (draw_interval_in_exact_arithmetic [⟨5⟩, ⟨10⟩, ⟨15⟩] [⟨100⟩, ⟨200⟩, ⟨300⟩] 3 1 1 0 0 (1 / 2)
      (by norm_num) (by norm_num) (by decide) (by decide)).1.1⟩

/-! ## C11: the paired model mirrors the unpaired model -/

section Mirror

/-- The statistics loops of the two constructors agree on records of equal
lengths, from any accumulators and for any divisor. -/
theorem statsLoop_paired_eq_unpaired {F : Type} (A : FloatOps F) (k : Nat) (L : List Nat) :
    ∀ st : Stats F,
      (L.map TemplatePaired.mk).foldl (InputModelPaired.step A k) st
        = (L.map TemplateUnpaired.mk).foldl (InputModelUnpaired.step A k) st := by
  induction L with
  | nil => intro st; rfl
  | cons a l ih =>
    intro st
    simp only [List.map_cons, List.foldl_cons]
    exact ih _

end Mirror

/-- C11: for every list of lengths `L`, every `n`, every pair of configuration
scalars and every sample `u` (under every interpretation of `float`), the
paired model built over records whose `fraglen_` values are `L` and the
unpaired model built over records whose `reflen()` values are `L` have equal
`avg_len()`, `max_len()`, `num_added()` and `empty()`, and `draw()` selects the
same index in both (or fails at `assert(!empty())` in both); the records drawn
have the same length. -/
theorem paired_mirrors_unpaired {F : Type} (A : FloatOps F) (L : List Nat) (n : Nat)
    (fe lsb u : F) :
    (InputModelPaired.new A (L.map TemplatePaired.mk) n fe lsb).avg_len
      = (InputModelUnpaired.new A (L.map TemplateUnpaired.mk) n fe lsb).avg_len ∧
    (InputModelPaired.new A (L.map TemplatePaired.mk) n fe lsb).max_len
      = (InputModelUnpaired.new A (L.map TemplateUnpaired.mk) n fe lsb).max_len ∧
    (InputModelPaired.new A (L.map TemplatePaired.mk) n fe lsb).num_added
      = (InputModelUnpaired.new A (L.map TemplateUnpaired.mk) n fe lsb).num_added ∧
    (InputModelPaired.new A (L.map TemplatePaired.mk) n fe lsb).empty
      = (InputModelUnpaired.new A (L.map TemplateUnpaired.mk) n fe lsb).empty ∧
    (InputModelPaired.new A (L.map TemplatePaired.mk) n fe lsb).drawIndex A u
      = (InputModelUnpaired.new A (L.map TemplateUnpaired.mk) n fe lsb).drawIndex A u ∧
    ((InputModelPaired.new A (L.map TemplatePaired.mk) n fe lsb).draw A u).map
        TemplatePaired.fraglen_
      = ((InputModelUnpaired.new A (L.map TemplateUnpaired.mk) n fe lsb).draw A u).map
        TemplateUnpaired.reflen := by
  have hloop := statsLoop_paired_eq_unpaired A L.length L { avg := A.zero, max := 0 }
  have hidx : (InputModelPaired.new A (L.map TemplatePaired.mk) n fe lsb).drawIndex A u
      = (InputModelUnpaired.new A (L.map TemplateUnpaired.mk) n fe lsb).drawIndex A u := by
    cases L with
    | nil => rfl
    | cons a l =>
      rw [paired_drawIndex_of_ne_nil A _ u (by simp),
        unpaired_drawIndex_of_ne_nil A _ u (by simp)]
      simp
  refine ⟨?_, ?_, rfl, ?_, hidx, ?_⟩
  · simp only [InputModelPaired.avg_len, InputModelUnpaired.avg_len, InputModelPaired.new,
      InputModelUnpaired.new, List.length_map, hloop]
  · simp only [InputModelPaired.max_len, InputModelUnpaired.max_len, InputModelPaired.new,
      InputModelUnpaired.new, List.length_map, hloop]
  · cases L <;> rfl
  · simp only [InputModelPaired.draw, InputModelUnpaired.draw, hidx]
    cases (InputModelUnpaired.new A (L.map TemplateUnpaired.mk) n fe lsb).drawIndex A u with
    | error e => rfl
    | ok rn =>
      simp only [paired_new_ts, unpaired_new_ts, List.getElem?_map]
      cases L[rn]? <;> rfl

/-! ## C12: the divisions of the constructors -/

section Divisors

/-- The recording loop of the unpaired constructor computes the statistics of
the plain loop and records the divisor once per visited record. -/
theorem unpaired_foldl_stepLogged {F : Type} (A : FloatOps F) (k : Nat)
    (ts : List TemplateUnpaired) :
    ∀ (st : Stats F) (log : List Nat),
      ts.foldl (InputModelUnpaired.stepLogged A k) (st, log)
        = (ts.foldl (InputModelUnpaired.step A k) st, log ++ List.replicate ts.length k) := by
  induction ts with
  | nil => intro st log; simp
  | cons a l ih =>
    intro st log
    simp only [List.foldl_cons, List.length_cons, List.replicate_succ]
    rw [InputModelUnpaired.stepLogged, ih]
    simp

/-- The recording loop of the paired constructor computes the statistics of
the plain loop and records the divisor once per visited record. -/
theorem paired_foldl_stepLogged {F : Type} (A : FloatOps F) (k : Nat)
    (ts : List TemplatePaired) :
    ∀ (st : Stats F) (log : List Nat),
      ts.foldl (InputModelPaired.stepLogged A k) (st, log)
        = (ts.foldl (InputModelPaired.step A k) st, log ++ List.replicate ts.length k) := by
  induction ts with
  | nil => intro st log; simp
  | cons a l ih =>
    intro st log
    simp only [List.foldl_cons, List.length_cons, List.replicate_succ]
    rw [InputModelPaired.stepLogged, ih]
    simp

/-- The single-precision conversion of a positive `size_t` is not zero. -/
theorem binary32_ofNat_pos (d : Nat) (hd : 0 < d) : 0 < (binary32.ofNat d).units := by
  have hp : 0 < d * F32.one := Nat.mul_pos hd (Nat.pos_pow_of_pos _ (by norm_num))
  obtain ⟨m, hm, _, _, hnear, _⟩ := F32.round_nearest (d * F32.one) 1 (by norm_num)
  obtain ⟨hlo, _⟩ := F32.ilog2_spec (d * F32.one) hp
  have hle : 2 ^ (F32.ilog2 (d * F32.one / 1) - 23) ≤ 2 ^ F32.ilog2 (d * F32.one) := by
    rw [Nat.div_one]
    exact Nat.pow_le_pow_right (by norm_num) (Nat.sub_le _ _)
  show 0 < (F32.round (d * F32.one) 1).units
  rw [hm]
  by_contra hzero
  have h0 : m * 2 ^ (F32.ilog2 (d * F32.one / 1) - 23) = 0 := by omega
  rw [h0] at hnear
  omega

end Divisors

/-- C12: construction never divides by zero.  For every collection, the
constructor's loop (unpaired and paired) executes exactly one division per
record, each with the collection size as divisor, and every divisor is
positive; over the empty collection no division is executed.  The recorded
loop computes the statistics of the constructed model, and the divisor
converted to `float` is non-zero in single precision and in exact
arithmetic. -/
theorem construction_never_divides_by_zero {F : Type} (A : FloatOps F)
    (tsU : List TemplateUnpaired) (tsP : List TemplatePaired) (n : Nat) (fe lsb : F) :
    ((InputModelUnpaired.loopLogged A tsU).1.avg = (InputModelUnpaired.new A tsU n fe lsb).avg_len ∧
      (InputModelUnpaired.loopLogged A tsU).1.max = (InputModelUnpaired.new A tsU n fe lsb).max_len ∧
      (InputModelUnpaired.loopLogged A tsU).2 = List.replicate tsU.length tsU.length ∧
      (∀ d ∈ (InputModelUnpaired.loopLogged A tsU).2,
        0 < d ∧ 0 < (binary32.ofNat d).units ∧ exactArith.ofNat d ≠ 0)) ∧
    ((InputModelPaired.loopLogged A tsP).1.avg = (InputModelPaired.new A tsP n fe lsb).avg_len ∧
      (InputModelPaired.loopLogged A tsP).1.max = (InputModelPaired.new A tsP n fe lsb).max_len ∧
      (InputModelPaired.loopLogged A tsP).2 = List.replicate tsP.length tsP.length ∧
      (∀ d ∈ (InputModelPaired.loopLogged A tsP).2,
        0 < d ∧ 0 < (binary32.ofNat d).units ∧ exactArith.ofNat d ≠ 0)) ∧
    (InputModelUnpaired.loopLogged A []).2 = [] ∧
    (InputModelPaired.loopLogged A []).2 = [] := by
  have hU := unpaired_foldl_stepLogged A tsU.length tsU { avg := A.zero, max := 0 } []
  have hP := paired_foldl_stepLogged A tsP.length tsP { avg := A.zero, max := 0 } []
  have hlogU : (InputModelUnpaired.loopLogged A tsU).2 = List.replicate tsU.length tsU.length := by
    rw [InputModelUnpaired.loopLogged, hU]
    simp
  have hlogP : (InputModelPaired.loopLogged A tsP).2 = List.replicate tsP.length tsP.length := by
    rw [InputModelPaired.loopLogged, hP]
    simp
  have hpos : ∀ k d : Nat, d ∈ List.replicate k k →
      0 < d ∧ 0 < (binary32.ofNat d).units ∧ exactArith.ofNat d ≠ 0 := by
    intro k d hd
    obtain ⟨hk, rfl⟩ := List.mem_replicate.mp hd
    have hd0 : 0 < d := Nat.pos_of_ne_zero hk
    refine ⟨hd0, binary32_ofNat_pos d hd0, ?_⟩
    show (d : ℚ) ≠ 0
    exact_mod_cast hk
  refine ⟨⟨?_, ?_, hlogU, ?_⟩, ⟨?_, ?_, hlogP, ?_⟩, rfl, rfl⟩
  · rw [InputModelUnpaired.loopLogged, hU]
    rfl
  · rw [InputModelUnpaired.loopLogged, hU]
    rfl
  · intro d hd
    rw [hlogU] at hd
    exact hpos _ d hd
  · rw [InputModelPaired.loopLogged, hP]
    rfl
  · rw [InputModelPaired.loopLogged, hP]
    rfl
  · intro d hd
    rw [hlogP] at hd
    exact hpos _ d hd

/-! ## C13: the clamp and the sample `1.0` -/

/-- C13 fails in single precision for collection sizes that `float` cannot
hold.  The size `2^24 + 1` is converted to `2^24`, so for the sample `1.0f` the
unclamped index is `2^24 = k - 1`, in bounds, and not `k`.  The size
`2^25 + 2` is converted to `2^25`, so for the sample `1.0f` `draw()` (unpaired
and paired) selects index `2^25 = k - 2`, not `k - 1`. -/
theorem clamp_description_fails_for_rounded_sizes :
    (binary32.ofNat 1 = ⟨F32.one⟩ ∧ F32.toRat ⟨F32.one⟩ = 1) ∧
    (binary32.ofNat (2 ^ 24 + 1) = binary32.ofNat (2 ^ 24) ∧
      unclampedIndex binary32 ⟨F32.one⟩ (2 ^ 24 + 1) = 2 ^ 24 ∧
      unclampedIndex binary32 ⟨F32.one⟩ (2 ^ 24 + 1) ≠ 2 ^ 24 + 1) ∧
    (unclampedIndex binary32 ⟨F32.one⟩ (2 ^ 25 + 2) = 2 ^ 25 ∧
      (InputModelUnpaired.new binary32 (List.replicate (2 ^ 25 + 2) ⟨1⟩) (2 ^ 25 + 2) ⟨0⟩
          ⟨0⟩).drawIndex binary32 ⟨F32.one⟩ = .ok (2 ^ 25) ∧
      (InputModelPaired.new binary32 (List.replicate (2 ^ 25 + 2) ⟨1⟩) (2 ^ 25 + 2) ⟨0⟩
          ⟨0⟩).drawIndex binary32 ⟨F32.one⟩ = .ok (2 ^ 25) ∧
      (2 ^ 25 : Nat) ≠ (2 ^ 25 + 2) - 1) := by
  have hnum : min (binary32.toNat (binary32.mul ⟨F32.one⟩ (binary32.ofNat (2 ^ 25 + 2))))
      (2 ^ 25 + 2 - 1) = 2 ^ 25 := by decide!
  have hneU : (InputModelUnpaired.new binary32 (List.replicate (2 ^ 25 + 2) ⟨1⟩) (2 ^ 25 + 2)
      ⟨0⟩ ⟨0⟩).ts_ ≠ [] := by
    intro h
    have h2 := congrArg List.length h
    rw [unpaired_new_ts, List.length_replicate] at h2
    exact absurd h2 (by decide)
  have hneP : (InputModelPaired.new binary32 (List.replicate (2 ^ 25 + 2) ⟨1⟩) (2 ^ 25 + 2)
      ⟨0⟩ ⟨0⟩).ts_ ≠ [] := by
    intro h
    have h2 := congrArg List.length h
    rw [paired_new_ts, List.length_replicate] at h2
    exact absurd h2 (by decide)
  refine ⟨by decide!, by decide!, by decide!, ?_, ?_, by decide⟩
  · rw [unpaired_drawIndex_of_ne_nil binary32 _ ⟨F32.one⟩ hneU, unpaired_new_ts,
      List.length_replicate, hnum]
  · rw [paired_drawIndex_of_ne_nil binary32 _ ⟨F32.one⟩ hneP, paired_new_ts,
      List.length_replicate, hnum]

/-- C13, amended: the clamp in `draw()` is the guard for `u = 1.0`.  For every
collection size `k > 0`: in exact arithmetic, and in single precision when
`k ≤ 2^24` (up to there `float` holds every size exactly), the sample `1.0` gives the
unclamped value `floor(u * k) = k`, out of bounds, and the clamped index
`k - 1`; and for every sample `u` in `[0,1)`, in exact arithmetic and for every
single-precision value `u`, `floor(u * k)` is already at most `k - 1`, so the
clamp leaves it unchanged.  The index of `draw()` (unpaired and paired, under
every interpretation of `float`) is the clamped value, which is below `k`. -/
theorem clamp_guards_sample_one (k : Nat) (hk : 0 < k) :
    (unclampedIndex exactArith 1 k = k ∧
      min (unclampedIndex exactArith 1 k) (k - 1) = k - 1) ∧
    (∀ u : ℚ, 0 ≤ u → u < 1 →
      unclampedIndex exactArith u k ≤ k - 1 ∧
      min (unclampedIndex exactArith u k) (k - 1) = unclampedIndex exactArith u k) ∧
    (k ≤ 2 ^ 24 →
      unclampedIndex binary32 ⟨F32.one⟩ k = k ∧
      min (unclampedIndex binary32 ⟨F32.one⟩ k) (k - 1) = k - 1) ∧
    (∀ u : F32, u.isValue = true → u.units < F32.one →
      unclampedIndex binary32 u k ≤ k - 1 ∧
      min (unclampedIndex binary32 u k) (k - 1) = unclampedIndex binary32 u k) ∧
    (∀ (F : Type) (A : FloatOps F) (u fe lsb : F) (n : Nat)
        (tsU : List TemplateUnpaired) (tsP : List TemplatePaired),
      tsU.length = k → tsP.length = k →
      (InputModelUnpaired.new A tsU n fe lsb).drawIndex A u
          = .ok (min (unclampedIndex A u k) (k - 1)) ∧
      (InputModelPaired.new A tsP n fe lsb).drawIndex A u
          = .ok (min (unclampedIndex A u k) (k - 1)) ∧
      min (unclampedIndex A u k) (k - 1) < k) := by
  obtain ⟨hone, hbelow⟩ := exact_unclamped k hk
  refine ⟨⟨hone, ?_⟩, ?_, ?_, ?_, ?_⟩
  · rw [hone]
    exact min_eq_right (Nat.sub_le k 1)
  · intro u hu0 hu1
    have h := hbelow u hu0 hu1
    exact ⟨by omega, min_eq_left (by omega)⟩
  · intro hk24
    have h := binary32_unclamped_at_one k hk24
    refine ⟨h, ?_⟩
    rw [h]
    exact min_eq_right (Nat.sub_le k 1)
  · intro u hv hlt
    have h := binary32_unclamped_lt k u hk hv hlt
    exact ⟨by omega, min_eq_left (by omega)⟩
  · intro F A u fe lsb n tsU tsP hU hP
    have hneU : (InputModelUnpaired.new A tsU n fe lsb).ts_ ≠ [] := by
      rw [unpaired_new_ts]
      exact List.length_pos.mp (by omega)
    have hneP : (InputModelPaired.new A tsP n fe lsb).ts_ ≠ [] := by
      rw [paired_new_ts]
      exact List.length_pos.mp (by omega)
    refine ⟨?_, ?_, by omega⟩
    · rw [unpaired_drawIndex_of_ne_nil A _ u hneU, unpaired_new_ts, hU]
      rfl
    · rw [paired_drawIndex_of_ne_nil A _ u hneP, paired_new_ts, hP]
      rfl

/-- C13 amended, at a concrete input: three records. -/
theorem clamp_guards_sample_one_witness :
    0 < 3 ∧
    (unclampedIndex exactArith 1 3 = 3 ∧ min (unclampedIndex exactArith 1 3) (3 - 1) = 3 - 1) ∧
    (3 ≤ 2 ^ 24 →
      unclampedIndex binary32 ⟨F32.one⟩ 3 = 3 ∧
      min (unclampedIndex binary32 ⟨F32.one⟩ 3) (3 - 1) = 3 - 1) :=
  ⟨by decide, (clamp_guards_sample_one 3 (by decide)).1,
    (clamp_guards_sample_one 3 (by decide)).2.2.1⟩

/-! ## C14: `num_added()` and the collection size -/

/-- C14 fails: the constructor takes `n` next to the collection and stores it
unchecked.  Built with `n = 7` over three records, the unpaired and the paired
model have `num_added() = 7` while the collection size is `3`; built with
`n = 0` over one record, `num_added() = 0` while the size is `1`. -/
theorem num_added_differs_from_collection_size :
    (InputModelUnpaired.new binary32 [⟨5⟩, ⟨10⟩, ⟨15⟩] 7 ⟨0⟩ ⟨0⟩).num_added = 7 ∧
    (InputModelUnpaired.new binary32 [⟨5⟩, ⟨10⟩, ⟨15⟩] 7 ⟨0⟩ ⟨0⟩).ts_.length = 3 ∧
    (InputModelUnpaired.new binary32 [⟨5⟩, ⟨10⟩, ⟨15⟩] 7 ⟨0⟩ ⟨0⟩).num_added
      ≠ (InputModelUnpaired.new binary32 [⟨5⟩, ⟨10⟩, ⟨15⟩] 7 ⟨0⟩ ⟨0⟩).ts_.length ∧
    (InputModelPaired.new binary32 [⟨5⟩, ⟨10⟩, ⟨15⟩] 7 ⟨0⟩ ⟨0⟩).num_added
      ≠ (InputModelPaired.new binary32 [⟨5⟩, ⟨10⟩, ⟨15⟩] 7 ⟨0⟩ ⟨0⟩).ts_.length ∧
    (InputModelUnpaired.new binary32 [⟨5⟩] 0 ⟨0⟩ ⟨0⟩).num_added
      ≠ (InputModelUnpaired.new binary32 [⟨5⟩] 0 ⟨0⟩ ⟨0⟩).ts_.length := by
  decide

/-- C14, amended: for every model that can be constructed, `num_added()` is the
`n` given to the constructor; it is equal to the size of the referenced
collection exactly when the constructor was given `n` equal to that size
(unpaired and paired, under every interpretation of `float`). -/
theorem num_added_eq_size_iff {F : Type} (A : FloatOps F)
    (tsU : List TemplateUnpaired) (tsP : List TemplatePaired) (n : Nat) (fe lsb : F) :
    ((InputModelUnpaired.new A tsU n fe lsb).num_added = n ∧
      ((InputModelUnpaired.new A tsU n fe lsb).num_added
          = (InputModelUnpaired.new A tsU n fe lsb).ts_.length ↔ n = tsU.length)) ∧
    ((InputModelPaired.new A tsP n fe lsb).num_added = n ∧
      ((InputModelPaired.new A tsP n fe lsb).num_added
          = (InputModelPaired.new A tsP n fe lsb).ts_.length ↔ n = tsP.length)) ∧
    (InputModelUnpaired.new A tsU tsU.length fe lsb).num_added
      = (InputModelUnpaired.new A tsU tsU.length fe lsb).ts_.length ∧
    (InputModelPaired.new A tsP tsP.length fe lsb).num_added
      = (InputModelPaired.new A tsP tsP.length fe lsb).ts_.length :=
  ⟨⟨rfl, Iff.rfl⟩, ⟨rfl, Iff.rfl⟩, rfl, rfl⟩

/-! ## C15: `avg_len()` between the smallest length and `max_len()` -/

section Bounds

/-- In exact arithmetic `avg_len()` of the paired model is the sum of the
fragment lengths over the collection size. -/
theorem paired_exact_avg_len (ts : List TemplatePaired) (n : Nat) (fe lsb : ℚ) :
    (InputModelPaired.new exactArith ts n fe lsb).avg_len
      = (((ts.map TemplatePaired.fraglen_).sum : Nat) : ℚ) / (ts.length : ℚ) := by
  have h := statsLoop_exact_avg TemplatePaired.fraglen_
    (fun s t => max s.max t.fraglen_) ts.length ts { avg := 0, max := 0 }
  simp only [zero_add] at h
  exact h

/-- A non-empty collection has a record of smallest length. -/
theorem exists_smallest_length {T : Type} (len : T → Nat) (ts : List T) (hne : ts ≠ []) :
    ∃ t ∈ ts, ∀ t' ∈ ts, len t ≤ len t' := by
  induction ts with
  | nil => exact absurd rfl hne
  | cons a l ih =>
    rcases l.eq_nil_or_concat with hl | _
    · subst hl
      exact ⟨a, List.mem_cons_self _ _, by simp⟩
    · have hl : l ≠ [] := by
        rintro rfl
        simp_all
      obtain ⟨t, ht, hmin⟩ := ih hl
      rcases le_total (len a) (len t) with h | h
      · refine ⟨a, List.mem_cons_self _ _, ?_⟩
        intro t' ht'
        rcases List.mem_cons.mp ht' with rfl | ht'
        · exact le_refl _
        · exact le_trans h (hmin t' ht')
      · refine ⟨t, List.mem_cons_of_mem _ ht, ?_⟩
        intro t' ht'
        rcases List.mem_cons.mp ht' with rfl | ht'
        · exact h
        · exact hmin t' ht'

/-- The mean of natural numbers that are all at most `M` is at most `M`; the
mean of no numbers is `0`. -/
theorem mean_le_of_forall_le (L : List Nat) (M : Nat) (h : ∀ x ∈ L, x ≤ M) :
    ((L.sum : Nat) : ℚ) / (L.length : ℚ) ≤ (M : ℚ) := by
  rcases Nat.eq_zero_or_pos L.length with h0 | hpos
  · simp [h0]
  · have hq : (0 : ℚ) < (L.length : ℚ) := by exact_mod_cast hpos
    rw [div_le_iff₀ hq]
    have hs : L.sum ≤ L.length * M := by
      have := List.sum_le_card_nsmul L M h
      simpa [smul_eq_mul] using this
    exact_mod_cast (by rw [Nat.mul_comm]; exact hs : L.sum ≤ M * L.length)

/-- The mean of at least one natural number, all at least `c`, is at least
`c`. -/
theorem le_mean_of_forall_le (L : List Nat) (c : Nat) (hne : L ≠ []) (h : ∀ x ∈ L, c ≤ x) :
    (c : ℚ) ≤ ((L.sum : Nat) : ℚ) / (L.length : ℚ) := by
  have hpos : 0 < L.length := List.length_pos.mpr hne
  have hq : (0 : ℚ) < (L.length : ℚ) := by exact_mod_cast hpos
  rw [le_div_iff₀ hq]
  have hs : L.length * c ≤ L.sum := by
    have := List.card_nsmul_le_sum L c h
    simpa [smul_eq_mul] using this
  exact_mod_cast (by rw [Nat.mul_comm]; exact hs : c * L.length ≤ L.sum)

end Bounds

section BoundsOfModels

/-- In exact arithmetic, the statistics of an unpaired model: the average is at
most the maximum, at least every lower bound of the lengths when there is a
record, and both are `c` when there is a record and all lengths are `c`. -/
theorem unpaired_exact_bounds (ts : List TemplateUnpaired) (n : Nat) (fe lsb : ℚ) :
    (InputModelUnpaired.new exactArith ts n fe lsb).avg_len
        ≤ ((InputModelUnpaired.new exactArith ts n fe lsb).max_len : ℚ) ∧
    (∀ c : Nat, ts ≠ [] → (∀ t ∈ ts, c ≤ t.reflen) →
        (c : ℚ) ≤ (InputModelUnpaired.new exactArith ts n fe lsb).avg_len) ∧
    (∀ c : Nat, ts ≠ [] → (∀ t ∈ ts, t.reflen = c) →
        (InputModelUnpaired.new exactArith ts n fe lsb).avg_len = (c : ℚ) ∧
        (InputModelUnpaired.new exactArith ts n fe lsb).max_len = c) := by
  have hmax := (statsLoop_max_spec
      (fun s t => exactArith.add s.avg (exactArith.div (exactArith.ofNat t.reflen)
        (exactArith.ofNat ts.length)))
      TemplateUnpaired.reflen ts { avg := exactArith.zero, max := 0 }).2.1
  have hupper : (InputModelUnpaired.new exactArith ts n fe lsb).avg_len
      ≤ ((InputModelUnpaired.new exactArith ts n fe lsb).max_len : ℚ) := by
    rw [unpaired_exact_avg_len]
    have h := mean_le_of_forall_le (ts.map TemplateUnpaired.reflen)
      (InputModelUnpaired.new exactArith ts n fe lsb).max_len (by
        intro x hx
        obtain ⟨t, ht, rfl⟩ := List.mem_map.mp hx
        exact hmax t ht)
    rwa [List.length_map] at h
  have hlower : ∀ c : Nat, ts ≠ [] → (∀ t ∈ ts, c ≤ t.reflen) →
      (c : ℚ) ≤ (InputModelUnpaired.new exactArith ts n fe lsb).avg_len := by
    intro c hne hc
    rw [unpaired_exact_avg_len]
    have h := le_mean_of_forall_le (ts.map TemplateUnpaired.reflen) c (by simpa using hne) (by
      intro x hx
      obtain ⟨t, ht, rfl⟩ := List.mem_map.mp hx
      exact hc t ht)
    rwa [List.length_map] at h
  refine ⟨hupper, hlower, ?_⟩
  intro c hne hc
  obtain ⟨t, ht, hatt⟩ := statsLoop_max_attained
      (fun s t => exactArith.add s.avg (exactArith.div (exactArith.ofNat t.reflen)
        (exactArith.ofNat ts.length)))
      TemplateUnpaired.reflen ts exactArith.zero hne
  have hm : (InputModelUnpaired.new exactArith ts n fe lsb).max_len = c := by
    rw [← hc t ht]
    exact hatt.symm
  refine ⟨le_antisymm ?_ (hlower c hne (fun t ht => (hc t ht).ge)), hm⟩
  rw [← hm]
  exact hupper

/-- In exact arithmetic, the statistics of a paired model: the average is at
most the maximum, at least every lower bound of the lengths when there is a
record, and both are `c` when there is a record and all lengths are `c`. -/
theorem paired_exact_bounds (ts : List TemplatePaired) (n : Nat) (fe lsb : ℚ) :
    (InputModelPaired.new exactArith ts n fe lsb).avg_len
        ≤ ((InputModelPaired.new exactArith ts n fe lsb).max_len : ℚ) ∧
    (∀ c : Nat, ts ≠ [] → (∀ t ∈ ts, c ≤ t.fraglen_) →
        (c : ℚ) ≤ (InputModelPaired.new exactArith ts n fe lsb).avg_len) ∧
    (∀ c : Nat, ts ≠ [] → (∀ t ∈ ts, t.fraglen_ = c) →
        (InputModelPaired.new exactArith ts n fe lsb).avg_len = (c : ℚ) ∧
        (InputModelPaired.new exactArith ts n fe lsb).max_len = c) := by
  have hmax := (statsLoop_max_spec
      (fun s t => exactArith.add s.avg (exactArith.div (exactArith.ofNat t.fraglen_)
        (exactArith.ofNat ts.length)))
      TemplatePaired.fraglen_ ts { avg := exactArith.zero, max := 0 }).2.1
  have hupper : (InputModelPaired.new exactArith ts n fe lsb).avg_len
      ≤ ((InputModelPaired.new exactArith ts n fe lsb).max_len : ℚ) := by
    rw [paired_exact_avg_len]
    have h := mean_le_of_forall_le (ts.map TemplatePaired.fraglen_)
      (InputModelPaired.new exactArith ts n fe lsb).max_len (by
        intro x hx
        obtain ⟨t, ht, rfl⟩ := List.mem_map.mp hx
        exact hmax t ht)
    rwa [List.length_map] at h
  have hlower : ∀ c : Nat, ts ≠ [] → (∀ t ∈ ts, c ≤ t.fraglen_) →
      (c : ℚ) ≤ (InputModelPaired.new exactArith ts n fe lsb).avg_len := by
    intro c hne hc
    rw [paired_exact_avg_len]
    have h := le_mean_of_forall_le (ts.map TemplatePaired.fraglen_) c (by simpa using hne) (by
      intro x hx
      obtain ⟨t, ht, rfl⟩ := List.mem_map.mp hx
      exact hc t ht)
    rwa [List.length_map] at h
  refine ⟨hupper, hlower, ?_⟩
  intro c hne hc
  obtain ⟨t, ht, hatt⟩ := statsLoop_max_attained
      (fun s t => exactArith.add s.avg (exactArith.div (exactArith.ofNat t.fraglen_)
        (exactArith.ofNat ts.length)))
      TemplatePaired.fraglen_ ts exactArith.zero hne
  have hm : (InputModelPaired.new exactArith ts n fe lsb).max_len = c := by
    rw [← hc t ht]
    exact hatt.symm
  refine ⟨le_antisymm ?_ (hlower c hne (fun t ht => (hc t ht).ge)), hm⟩
  rw [← hm]
  exact hupper

end BoundsOfModels

/-- C15: over exact arithmetic on the per-record quotients, for every
collection (empty or not) and every `n`, the constructed model (unpaired and
paired) has `avg_len() ≤ max_len()`; for a non-empty collection `avg_len()` is
at least the smallest record length; and when the records (at least one) all
have the same length `c`, `avg_len() = max_len() = c`. -/
theorem exact_avg_len_between_smallest_and_max_len
    (tsU : List TemplateUnpaired) (tsP : List TemplatePaired) (n : Nat) (fe lsb : ℚ) :
    ((InputModelUnpaired.new exactArith tsU n fe lsb).avg_len
        ≤ ((InputModelUnpaired.new exactArith tsU n fe lsb).max_len : ℚ) ∧
      (tsU ≠ [] → ∃ t ∈ tsU, (∀ t' ∈ tsU, t.reflen ≤ t'.reflen) ∧
        (t.reflen : ℚ) ≤ (InputModelUnpaired.new exactArith tsU n fe lsb).avg_len) ∧
      (∀ c : Nat, tsU ≠ [] → (∀ t ∈ tsU, t.reflen = c) →
        (InputModelUnpaired.new exactArith tsU n fe lsb).avg_len = (c : ℚ) ∧
        (InputModelUnpaired.new exactArith tsU n fe lsb).max_len = c)) ∧
    ((InputModelPaired.new exactArith tsP n fe lsb).avg_len
        ≤ ((InputModelPaired.new exactArith tsP n fe lsb).max_len : ℚ) ∧
      (tsP ≠ [] → ∃ t ∈ tsP, (∀ t' ∈ tsP, t.fraglen_ ≤ t'.fraglen_) ∧
        (t.fraglen_ : ℚ) ≤ (InputModelPaired.new exactArith tsP n fe lsb).avg_len) ∧
      (∀ c : Nat, tsP ≠ [] → (∀ t ∈ tsP, t.fraglen_ = c) →
        (InputModelPaired.new exactArith tsP n fe lsb).avg_len = (c : ℚ) ∧
        (InputModelPaired.new exactArith tsP n fe lsb).max_len = c)) := by
  obtain ⟨hU1, hU2, hU3⟩ := unpaired_exact_bounds tsU n fe lsb
  obtain ⟨hP1, hP2, hP3⟩ := paired_exact_bounds tsP n fe lsb
  refine ⟨⟨hU1, ?_, hU3⟩, ⟨hP1, ?_, hP3⟩⟩
  · intro hne
    obtain ⟨t, ht, hmin⟩ := exists_smallest_length TemplateUnpaired.reflen tsU hne
    exact ⟨t, ht, hmin, hU2 t.reflen hne hmin⟩
  · intro hne
    obtain ⟨t, ht, hmin⟩ := exists_smallest_length TemplatePaired.fraglen_ tsP hne
    exact ⟨t, ht, hmin, hP2 t.fraglen_ hne hmin⟩

/-- In single precision the bound of C15 is lost to rounding: over ten records
of length `1`, `avg_len()` is `8388609 / 8388608`, above `max_len() = 1`. -/
theorem single_precision_avg_len_above_max_len :
    (InputModelUnpaired.new binary32 (List.replicate 10 ⟨1⟩) 10 ⟨0⟩ ⟨0⟩).max_len = 1 ∧
    ((InputModelUnpaired.new binary32 (List.replicate 10 ⟨1⟩) 10 ⟨0⟩ ⟨0⟩).max_len : ℚ)
      < F32.toRat (InputModelUnpaired.new binary32 (List.replicate 10 ⟨1⟩) 10 ⟨0⟩ ⟨0⟩).avg_len := by
  decide!

end Qtip
